import Mathlib

/-!
# Sample buffer and output selection

A shallow embedding of `src/AlarmBuffer.cpp` (the class `Buffer`) and of
`src/AudiOnPlay.cpp` (the sentinel output `NoOutput` and the functions of
`musik::core::audio::outputs`), followed by the properties proved about them.

Conventions of the embedding.

* The platform is LP64: `long` and `size_t` have 64 bits, a `float` 4 bytes.
  `long` and `int` are `Int`. Signed overflow is undefined in C++ and is not
  modelled; the one sum the buffer forms is `offset + samples`, and the
  hypotheses of the theorems on what `Copy` does keep it below `2 ^ 63`.
* A `float` or `double` is held as its bit pattern (`Nat`). The code only stores
  and moves these values, it never computes with them.
* A `float*` is a `Store`: the identity of the block, what kind of memory it is
  and its cells. A cell is `none` while its value is indeterminate (never
  written, or freed). A block is taken to hold the cells the capacity of the
  buffer says; the size of a block is not modelled.
* `new float[n]` is answered by a `Heap`: it throws
  `std::bad_array_new_length` for `n < 0` and for `n` above the array limit,
  `std::bad_alloc` when the free store has no room for `n` floats, and succeeds
  otherwise.
* A member function returns a `Result`: the object as the call left it, the
  exception it threw if any, whether it ran into undefined behaviour (a
  `delete[]` of memory that is not a live block of `new float[]`, a `memcpy`
  of a negative count, from or to memory that is not there, or before the start
  of a block) and the blocks it released. When a call is undefined the other
  fields say nothing about the program.
* A `std::string` is a `String`; `operator<` on it is the lexicographic order of
  its characters, `operator==` is equality. A `std::shared_ptr<IOutput>` that may
  be empty is an `Option IOutput`.
* What the plugin registry and the preference store return is an argument of
  the function that asks for it.
-/

namespace Musik

/-! ## AlarmBuffer.cpp -/

/-- A `float` sample, as its bit pattern. -/
abbrev CFloat := Nat

/-- A `double`, as its bit pattern. -/
abbrev CDouble := Nat

/-- One `float` cell of memory; `none` is an indeterminate value. -/
abbrev Cell := Option CFloat

/-- What a `float*` points at: nothing (`nullptr`), a live block that
`new float[]` returned, a block that was passed to `delete[]`, or memory that
did not come from `new float[]` (an automatic or static array, `malloc`). -/
inductive StoreKind where
  | null
  | array
  | freed
  | foreign
  deriving DecidableEq, Repr

/-- The target of a `float*`: which block it is (`0` for `nullptr`), what its
cells hold and what kind of memory it is. -/
structure Store where
  id : Nat
  cells : Int → Cell
  kind : StoreKind

/-- The null pointer. -/
def Store.null : Store := ⟨0, fun _ => none, StoreKind.null⟩

/-- Cells can be read and written through the pointer. -/
def Store.usable (p : Store) : Prop :=
  p.kind = StoreKind.array ∨ p.kind = StoreKind.foreign

instance (p : Store) : Decidable p.usable := by
  unfold Store.usable
  infer_instance

/-- Modelled from the spec: the enum `Buffer::Flags` is declared in `Buffer.h`,
which is not among the sources. The spec describes a flag bitmask carrying two
independent marks: fixed capacity (`ImmutableSize`) and externally owned store
(`NoDelete`). `flags & ImmutableSize` is the field `ImmutableSize`. -/
structure Flags where
  ImmutableSize : Bool
  NoDelete : Bool
  deriving DecidableEq, Repr

/-- The value `NoFlags`. -/
def Flags.NoFlags : Flags := ⟨false, false⟩

/-- The fields of `Buffer`, in the order of the constructors' initialiser lists. -/
structure Buffer where
  buffer : Store
  samples : Int
  internalBufferSize : Int
  sampleRate : Int
  channels : Int
  flags : Flags
  position : CDouble

/-- The exceptions that leave the buffer's member functions. -/
inductive Exception where
  | runtime_error (what : String)
  | bad_array_new_length
  | bad_alloc
  deriving DecidableEq, Repr

/-- The error the spec calls `ResizeOnImmutableBuffer`: the `std::runtime_error`
thrown by `ResizeBuffer`. -/
def ResizeOnImmutableBuffer : Exception :=
  Exception.runtime_error "buffer cannot be resized"

/-- What a call leaves behind: the object, the exception it threw if it did,
whether it ran into undefined behaviour, and the blocks it passed to
`delete[]`. -/
structure Result where
  state : Buffer
  thrown : Option Exception
  undefined : Bool
  deleted : List Nat

/-- The free store at the time of a call: the number of floats it has room
for in one block. -/
structure Heap where
  available : Int

/-- The longest array `new float[n]` accepts: `n * sizeof(float)` has to stay
below half of the address space. -/
def maxArrayLength : Int := 2 ^ 61 - 1

/-- The heap answers `new float[n]` with a block. -/
def Heap.grants (heap : Heap) (n : Int) : Prop :=
  0 ≤ n ∧ n ≤ maxArrayLength ∧ n ≤ heap.available

instance (heap : Heap) (n : Int) : Decidable (heap.grants n) := by
  unfold Heap.grants
  infer_instance

/-- The expression `new float[n]`, evaluated while the buffer holds `live`. A
block returned is distinct from `live` and its cells are indeterminate. -/
def newFloat (heap : Heap) (live : Store) (n : Int) : Except Exception Store :=
  if n < 0 ∨ n > maxArrayLength then
    Except.error Exception.bad_array_new_length
  else if n > heap.available then
    Except.error Exception.bad_alloc
  else
    Except.ok ⟨live.id + 1, fun _ => none, StoreKind.array⟩

/-- The statement `delete[] p` is defined: `p` is null or a live block of
`new float[]`. -/
def deleteDefined (p : Store) : Prop :=
  p.kind = StoreKind.null ∨ p.kind = StoreKind.array

instance (p : Store) : Decidable (deleteDefined p) := by
  unfold deleteDefined
  infer_instance

/-- The statement `delete[] p`, when defined: nothing happens for `nullptr`;
a block is released, the pointer keeps its value and the cells are gone. -/
def deleteArray (p : Store) : Store :=
  if p.kind = StoreKind.null then p else ⟨p.id, fun _ => none, StoreKind.freed⟩

/-- The blocks `delete[] p` releases. -/
def deletedBy (p : Store) : List Nat :=
  if p.kind = StoreKind.array then [p.id] else []

/-- The cells a `float const*` argument points at: the samples of `l` from
index `0`, indeterminate elsewhere. -/
def cellsOf (l : List CFloat) : Int → Cell :=
  fun j => if 0 ≤ j then l[j.toNat]? else none

/-- The memory behind a `float const*` argument holds `num` samples. -/
def sourceHolds (l : List CFloat) (num : Int) : Prop :=
  0 ≤ num ∧ num ≤ l.length

instance (l : List CFloat) (num : Int) : Decidable (sourceHolds l num) := by
  unfold sourceHolds
  infer_instance

/-- A `memcpy` of `num` cells from or to `p + off` is defined: neither number
is negative, and the cells are there unless none is asked for. -/
def accessDefined (p : Store) (off num : Int) : Prop :=
  0 ≤ off ∧ 0 ≤ num ∧ (num = 0 ∨ p.usable)

instance (p : Store) (off num : Int) : Decidable (accessDefined p off num) := by
  unfold accessDefined
  infer_instance

/-- The macro `CopyFloat(dst + off, src, num)`, when defined: `num` cells of
`src` land in `dst` from cell `off` on. -/
def CopyFloat (dst : Int → Cell) (off : Int) (src : Int → Cell) (num : Int) : Int → Cell :=
  fun j => if off ≤ j ∧ j < off + num then src (j - off) else dst j

namespace Buffer

/-- The constructor `Buffer::Buffer(Flags flags)`. -/
def ofFlags (flags : Flags) : Musik.Buffer :=
  { buffer := Store.null
    samples := 0
    internalBufferSize := 0
    sampleRate := 44100
    channels := 2
    flags := flags
    position := 0 }

/-- The constructor `Buffer::Buffer(float* buffer, int samples)`. -/
def ofPointer (buffer : Store) (samples : Int) : Musik.Buffer :=
  { buffer := buffer
    samples := samples
    internalBufferSize := samples
    sampleRate := 44100
    channels := 2
    flags := ⟨true, true⟩
    position := 0 }

def SampleRate (b : Musik.Buffer) : Int := b.sampleRate

def SetSampleRate (b : Musik.Buffer) (sampleRate : Int) : Musik.Buffer :=
  { b with sampleRate := sampleRate }

def Channels (b : Musik.Buffer) : Int := b.channels

def SetChannels (b : Musik.Buffer) (channels : Int) : Musik.Buffer :=
  { b with channels := channels }

def BufferPointer (b : Musik.Buffer) : Store := b.buffer

def Samples (b : Musik.Buffer) : Int := b.samples

/-- The private member `ResizeBuffer`. -/
def ResizeBuffer (b : Musik.Buffer) (heap : Heap) : Result :=
  if b.samples > b.internalBufferSize then
    if b.flags.ImmutableSize = true ∧ b.internalBufferSize > 0 then
      { state := b
        thrown := some (Exception.runtime_error "buffer cannot be resized")
        undefined := false
        deleted := [] }
    else if deleteDefined b.buffer then
      let freed := { b with buffer := deleteArray b.buffer }
      match newFloat heap freed.buffer b.samples with
      | Except.error e =>
        { state := freed, thrown := some e, undefined := false, deleted := deletedBy b.buffer }
      | Except.ok p =>
        { state := { freed with buffer := p, internalBufferSize := b.samples }
          thrown := none
          undefined := false
          deleted := deletedBy b.buffer }
    else
      { state := b, thrown := none, undefined := true, deleted := [] }
  else
    { state := b, thrown := none, undefined := false, deleted := [] }

def SetSamples (b : Musik.Buffer) (heap : Heap) (samples : Int) : Result :=
  ResizeBuffer { b with samples := samples } heap

/-- The member `CopyFormat`; `none` is a null `fromBuffer`. -/
def CopyFormat (b : Musik.Buffer) (fromBuffer : Option Musik.Buffer) : Musik.Buffer :=
  match fromBuffer with
  | some f => { b with channels := f.Channels, sampleRate := f.SampleRate }
  | none => b

/-- The member `Bytes`: `sizeof(float) * samples` is formed in `size_t`, modulo
`2 ^ 64`, and returned as a `long`. -/
def Bytes (b : Musik.Buffer) : Int := Int.bmod (4 * b.samples) (2 ^ 64)

def Position (b : Musik.Buffer) : CDouble := b.position

def SetPosition (b : Musik.Buffer) (position : CDouble) : Musik.Buffer :=
  { b with position := position }

/-- The member `Copy`. In the branch that reallocates, the statements run in
the order of the source: `new`, the two `CopyFloat`, `delete[]`, the
assignments. -/
def Copy (b : Musik.Buffer) (heap : Heap) (buffer : List CFloat) (samples offset : Int) :
    Result :=
  let length := offset + samples
  if length > b.internalBufferSize then
    match newFloat heap b.buffer length with
    | Except.error e =>
      { state := b, thrown := some e, undefined := false, deleted := [] }
    | Except.ok newBuffer =>
      if accessDefined b.buffer 0 b.internalBufferSize ∧
          accessDefined newBuffer offset samples ∧ sourceHolds buffer samples ∧
          deleteDefined b.buffer then
        let c1 := CopyFloat newBuffer.cells 0 b.buffer.cells b.internalBufferSize
        let c2 := CopyFloat c1 offset (cellsOf buffer) samples
        { state := { b with buffer := { newBuffer with cells := c2 }
                            internalBufferSize := length
                            samples := max b.samples length }
          thrown := none
          undefined := false
          deleted := deletedBy b.buffer }
      else
        { state := b, thrown := none, undefined := true, deleted := [] }
  else if accessDefined b.buffer offset samples ∧ sourceHolds buffer samples then
    { state := { b with buffer := { b.buffer with
                                    cells := CopyFloat b.buffer.cells offset (cellsOf buffer)
                                      samples }
                        samples := max b.samples length }
      thrown := none
      undefined := false
      deleted := [] }
  else
    { state := b, thrown := none, undefined := true, deleted := [] }

/-- The buffer owns its store: it holds no block and has capacity 0, or it
holds a live block of `new float[]` and its capacity is not negative. A buffer
made by `Buffer(flags)` is in such a state, and stays in one through every
call that returns. -/
def ownsStore (b : Musik.Buffer) : Prop :=
  (b.buffer.kind = StoreKind.null ∧ b.internalBufferSize = 0) ∨
  (b.buffer.kind = StoreKind.array ∧ 0 ≤ b.internalBufferSize)

instance (b : Musik.Buffer) : Decidable b.ownsStore := by
  unfold ownsStore
  infer_instance

/-- The call `Copy(buffer, samples, offset)` is defined and the free store
grants what it asks for: the offset is not negative, the source holds the
samples, the capacity is not negative and the store holds it, and, when the
span exceeds the capacity, `new float[offset + samples]` returns a block and
the store held may be passed to `delete[]`. -/
def copyRuns (b : Musik.Buffer) (heap : Heap) (buffer : List CFloat) (samples offset : Int) :
    Prop :=
  0 ≤ offset ∧ sourceHolds buffer samples ∧ 0 ≤ b.internalBufferSize ∧
  (b.internalBufferSize = 0 ∨ b.buffer.usable) ∧
  (b.internalBufferSize < offset + samples →
    heap.grants (offset + samples) ∧ deleteDefined b.buffer)

instance (b : Musik.Buffer) (heap : Heap) (buffer : List CFloat) (samples offset : Int) :
    Decidable (b.copyRuns heap buffer samples offset) := by
  unfold copyRuns
  infer_instance

end Buffer

/-- A free store with room for 1024 floats. -/
def exampleHeap : Heap := ⟨1024⟩

/-- A block of `new float[]` that a caller filled with the samples of `l` and
hands to the buffer. -/
def callerMemory (l : List CFloat) : Store := ⟨1, cellsOf l, StoreKind.array⟩

/-- An automatic array of a caller, holding the samples of `l`. -/
def callerArray (l : List CFloat) : Store := ⟨1, cellsOf l, StoreKind.foreign⟩

/-- A view over four samples of caller memory: `Buffer(p, 4)`. -/
def exampleView : Buffer := Buffer.ofPointer (callerMemory [1, 2, 3, 4]) 4

/-- A growable buffer after `Copy` of four samples at offset 0. -/
def exampleGrown : Buffer :=
  ((Buffer.ofFlags Flags.NoFlags).Copy exampleHeap [1, 2, 3, 4] 4 0).state

/-! ## Sequences of `Copy` calls -/

/-- One call `Copy(buffer, samples, offset)`. -/
structure CopyCall where
  buffer : List CFloat
  samples : Int
  offset : Int
  deriving DecidableEq, Repr

/-- The arguments are in range and the source holds the samples asked for. -/
def CopyCall.wellFormed (w : CopyCall) : Prop :=
  0 ≤ w.offset ∧ 0 ≤ w.samples ∧ w.samples ≤ w.buffer.length

instance (w : CopyCall) : Decidable w.wellFormed := by
  unfold CopyCall.wellFormed
  infer_instance

/-- The spans `[offset, offset + samples)` of two calls share a cell. -/
def CopyCall.overlaps (a c : CopyCall) : Prop :=
  max a.offset c.offset < min (a.offset + a.samples) (c.offset + c.samples)

instance (a c : CopyCall) : Decidable (a.overlaps c) := by
  unfold CopyCall.overlaps
  infer_instance

/-- The largest `offset + samples` of the calls (`0` for no call). -/
def maxSpan (ws : List CopyCall) : Int :=
  ws.foldr (fun w m => max (w.offset + w.samples) m) 0

/-- The calls of `ws` made one after the other on the same buffer, each
answered by the same free store; an exception or undefined behaviour ends the
sequence. -/
def CopyAll (heap : Heap) (b : Buffer) : List CopyCall → Result
  | [] => { state := b, thrown := none, undefined := false, deleted := [] }
  | w :: ws =>
    if (b.Copy heap w.buffer w.samples w.offset).undefined = true then
      b.Copy heap w.buffer w.samples w.offset
    else
      match (b.Copy heap w.buffer w.samples w.offset).thrown with
      | some _ => b.Copy heap w.buffer w.samples w.offset
      | none =>
        { CopyAll heap (b.Copy heap w.buffer w.samples w.offset).state ws with
          deleted := (b.Copy heap w.buffer w.samples w.offset).deleted
            ++ (CopyAll heap (b.Copy heap w.buffer w.samples w.offset).state ws).deleted }

/-! ## AudiOnPlay.cpp -/

/-- An object behind an `IOutput*`: an output a plugin provides, known by which
object it is and by what its `Name()` returns, or the sentinel `NoOutput` with
its one data member. -/
inductive IOutput where
  | plugin (id : Nat) (name : String)
  | NoOutput (volume : CDouble)
  deriving DecidableEq, Repr

/-- The virtual member `Name`. -/
def IOutput.Name : IOutput → String
  | IOutput.plugin _ name => name
  | IOutput.NoOutput _ => "NoOutput"

/-- The expression `new NoOutput()`: `volume` starts as `1.0f`, the double `1.0`. -/
def NoOutput.new : IOutput := IOutput.NoOutput 0x3FF0000000000000

/-- A `std::shared_ptr<IOutput>`; `none` is the empty pointer. -/
abbrev Output := Option IOutput

/-- A `std::vector` of outputs, none of them empty. -/
abbrev OutputList := List IOutput

/-- The macro `LOWER(x)`: `tolower` on every character (the "C" locale: the
letters `A` to `Z`). -/
def LOWER (x : String) : String := ⟨x.toList.map Char.toLower⟩

/-- The comparator handed to `std::sort` in `queryOutputs`. -/
def compareByName (left right : IOutput) : Bool :=
  let l := LOWER left.Name
  let r := LOWER right.Name
  decide (l.toList < r.toList)

/-- One step of the insertion sort: `x` goes in front of the first element that
is not before it. -/
def insertSorted (comp : IOutput → IOutput → Bool) (x : IOutput) : OutputList → OutputList
  | [] => [x]
  | y :: ys => if comp y x then y :: insertSorted comp x ys else x :: y :: ys

/-- The call `std::sort(first, last, comp)`. The standard fixes the result up to
the order of the elements `comp` does not tell apart; the model is insertion
sort, which leaves such elements in the order they came in. -/
def stdSort (comp : IOutput → IOutput → Bool) : OutputList → OutputList
  | [] => []
  | x :: xs => insertSorted comp x (stdSort comp xs)

/-- The template `queryOutputs<D>`; `discovered` is what
`QueryInterface<IOutput, D>("GetAudioOutput")` returned. -/
def queryOutputs (discovered : OutputList) : OutputList :=
  stdSort compareByName discovered

def findByName (name : String) (list : OutputList) : Output :=
  if name.length ≠ 0 then
    list.find? (fun it => it.Name == name)
  else
    none

def GetAllOutputs (discovered : OutputList) : OutputList :=
  queryOutputs discovered

def GetOutputCount (discovered : OutputList) : Nat :=
  (queryOutputs discovered).length

/-- Modelled from the spec: the preference store (`Preferences`) is not among
the sources. It holds string values under string keys, `GetString` returns the
value last written under the key, and the empty string when there is none. -/
structure Preferences where
  entries : List (String × String)
  deriving DecidableEq, Repr

/-- Modelled from the spec: the store with nothing written to it. -/
def Preferences.empty : Preferences := ⟨[]⟩

/-- Modelled from the spec: `GetString(key)` of the preference store. -/
def Preferences.GetString (prefs : Preferences) (key : String) : String :=
  match prefs.entries.find? (fun e => e.1 == key) with
  | some e => e.2
  | none => ""

/-- Modelled from the spec: `SetString(key, value)` of the preference store. -/
def Preferences.SetString (prefs : Preferences) (key value : String) : Preferences :=
  ⟨(key, value) :: prefs.entries⟩

/-- Modelled from the spec: the key `keys::OutputPlugin` of `PreferenceKeys.h`,
under which the selected output plugin name is kept. -/
def keys.OutputPlugin : String := "OutputPlugin"

/-- The function `SelectedOutput`; `prefs` is the store of the playback
component, `defaultOutput` the constant of the platform, `discovered` what the
registry returned. -/
def SelectedOutput (prefs : Preferences) (defaultOutput : String)
    (discovered : OutputList) : Output :=
  let plugins := queryOutputs discovered
  if plugins.length ≠ 0 then
    let result := findByName (prefs.GetString keys.OutputPlugin) plugins
    let result := if result.isNone then findByName defaultOutput plugins else result
    let result := if result.isNone then plugins[0]? else result
    result
  else
    some NoOutput.new

/-- The two overloads of `SelectOutput`: the one on a `shared_ptr` passes
`output.get()` to the one on a pointer; `none` is the null pointer. The result
is the store of the playback component after the call. -/
def SelectOutput (prefs : Preferences) (output : Option IOutput) : Preferences :=
  match output with
  | some o => prefs.SetString keys.OutputPlugin o.Name
  | none => prefs

/-- The calls of `Release()` made so far, oldest first: the state a
release-counting registry keeps. -/
abbrev ReleaseLog := List IOutput

/-- The function `release`: `Release()` on every output of the list, in order. -/
def release (outputs : OutputList) (log : ReleaseLog) : ReleaseLog :=
  outputs.foldl (fun done output => done ++ [output]) log

/-- The search loop of `GetUnmanagedOutput(name)` and of
`GetUnmanagedSelectedOutput`: the first output whose `Name()` is `name` is taken
out of the list (`erase`, then `break`). The result is the output found, if any,
and the list left. -/
def takeByName (name : String) : OutputList → Option IOutput × OutputList
  | [] => (none, [])
  | o :: rest =>
    if o.Name == name then (some o, rest)
    else ((takeByName name rest).1, o :: (takeByName name rest).2)

/-- The overload `GetUnmanagedOutput(size_t index)`. The result is the pointer
returned and the log after the call; `none` stands for `all[index]` past the
end of a list that is not empty, which is undefined. -/
def GetUnmanagedOutput (discovered : OutputList) (index : Nat) (log : ReleaseLog) :
    Option (IOutput × ReleaseLog) :=
  let all := queryOutputs discovered
  if all.length = 0 then
    some (NoOutput.new, log)
  else
    match all[index]? with
    | none => none
    | some output => some (output, release (all.eraseIdx index) log)

/-- The overload `GetUnmanagedOutput(const std::string& name)`. -/
def GetUnmanagedOutputByName (discovered : OutputList) (name : String) (log : ReleaseLog) :
    IOutput × ReleaseLog :=
  let all := queryOutputs discovered
  let found := takeByName name all
  let log := release found.2 log
  match found.1 with
  | none => (NoOutput.new, log)
  | some output => (output, log)

/-- The function `GetUnmanagedSelectedOutput`. -/
def GetUnmanagedSelectedOutput (prefs : Preferences) (discovered : OutputList)
    (log : ReleaseLog) : IOutput × ReleaseLog :=
  let plugins := queryOutputs discovered
  let found : Option IOutput × OutputList :=
    if plugins.length ≠ 0 then
      let name := prefs.GetString keys.OutputPlugin
      let searched := takeByName name plugins
      match searched.1 with
      | some output => (some output, searched.2)
      | none => (searched.2[0]?, searched.2.eraseIdx 0)
    else
      (none, plugins)
  let log := release found.2 log
  match found.1 with
  | none => (NoOutput.new, log)
  | some output => (output, log)

/-! ## The class `NoOutput` -/

/-- Modelled from the spec: the enum `OutputState` belongs to the SDK headers,
which are not among the sources. The spec names one value, the invalid-state
sentinel; the other values are told apart by their code. -/
inductive OutputState where
  | InvalidState
  | other (code : Int)
  deriving DecidableEq, Repr

/-- The data members of a `NoOutput` object. -/
structure NoOutput where
  volume : CDouble
  deriving DecidableEq, Repr

namespace NoOutput

/-- The object `new NoOutput()` creates: `volume{ 1.0f }`. -/
def init : NoOutput := ⟨0x3FF0000000000000⟩

/-- The member `Release`: `delete this`; no object is left. -/
def Release (_self : NoOutput) : Option NoOutput := none

def Pause (self : NoOutput) : NoOutput := self

def Resume (self : NoOutput) : NoOutput := self

def SetVolume (self : NoOutput) (volume : CDouble) : NoOutput :=
  { self with volume := volume }

def GetVolume (self : NoOutput) : CDouble := self.volume

def Stop (self : NoOutput) : NoOutput := self

/-- The member `Play`; the two pointers are not looked at. The result is the
object after the call and the value returned. -/
def Play (self : NoOutput) (_buffer : Option Buffer) (_provider : Option Nat) :
    NoOutput × OutputState :=
  (self, OutputState.InvalidState)

def Drain (self : NoOutput) : NoOutput := self

/-- The member `Latency`: the double `0.0`. -/
def Latency (_self : NoOutput) : CDouble := 0

def Name (_self : NoOutput) : String := "NoOutput"

/-- The member `GetDeviceList`; `none` is `nullptr`. -/
def GetDeviceList (_self : NoOutput) : Option Nat := none

/-- The member `SetDefaultDevice`; `deviceId` is a `const char*`, `none` when
null. The result is the object after the call and the value returned. -/
def SetDefaultDevice (self : NoOutput) (_deviceId : Option String) : NoOutput × Bool :=
  (self, false)

/-- The member `GetDefaultDevice`; `none` is `nullptr`. -/
def GetDefaultDevice (_self : NoOutput) : Option Nat := none

def GetDefaultSampleRate (_self : NoOutput) : Int := -1

/-- The object as an `IOutput`. -/
def toIOutput (self : NoOutput) : IOutput := IOutput.NoOutput self.volume

end NoOutput

/-- Two outputs for concrete checks, discovered in the order "B", "A". -/
def exampleOutputs : OutputList := [IOutput.plugin 1 "B", IOutput.plugin 2 "A"]

/-! ## The selection rule in the words of the spec -/

/-- The case-insensitive order of two outputs: the lower-cased name of `a` is
not after that of `c`. -/
def nameLE (a c : IOutput) : Prop :=
  (LOWER a.Name).toList ≤ (LOWER c.Name).toList

instance (a c : IOutput) : Decidable (nameLE a c) := by
  unfold nameLE
  infer_instance

/-- The three-tier fallback as the spec words it, over the sorted list `S`:
the first output named `p` when `p` is not empty and there is one, else the
first output named `d` when there is one, else the first of `S`; a `NoOutput`
when `S` is empty. -/
def threeTier (p d : String) (S : OutputList) : IOutput :=
  match S with
  | [] => NoOutput.new
  | first :: _ =>
    match (if p ≠ "" then S.find? (fun o => o.Name == p) else none) with
    | some o => o
    | none =>
      match S.find? (fun o => o.Name == d) with
      | some o => o
      | none => first

/-! # Theorems -/

/-! ## Lemmas on `Copy` -/

theorem newFloat_of_grants (heap : Heap) (live : Store) (n : Int) (h : heap.grants n) :
    newFloat heap live n = Except.ok ⟨live.id + 1, fun _ => none, StoreKind.array⟩ := by
  obtain ⟨h0, h1, h2⟩ := h
  unfold newFloat
  have ha : ¬ (n < 0 ∨ n > maxArrayLength) := by omega
  have hb : ¬ (n > heap.available) := by omega
  rw [if_neg ha, if_neg hb]

/-- What `Copy` does when the span is within the capacity. -/
theorem Copy_fits (b : Buffer) (heap : Heap) (src : List CFloat) (samples offset : Int)
    (hrun : b.copyRuns heap src samples offset)
    (h : offset + samples ≤ b.internalBufferSize) :
    b.Copy heap src samples offset =
      { state := { b with buffer := { b.buffer with
                                      cells := CopyFloat b.buffer.cells offset (cellsOf src)
                                        samples }
                          samples := max b.samples (offset + samples) }
        thrown := none
        undefined := false
        deleted := [] } := by
  obtain ⟨ho, hsrc, hcap, hstore, _⟩ := hrun
  have h1 : ¬ (offset + samples > b.internalBufferSize) := by omega
  have hacc : accessDefined b.buffer offset samples := by
    refine ⟨ho, hsrc.1, ?_⟩
    rcases hstore with h0 | hu
    · left
      have := hsrc.1
      omega
    · exact Or.inr hu
  simp only [Buffer.Copy, h1, if_false, if_pos (And.intro hacc hsrc)]

/-- What `Copy` does when the span exceeds the capacity. -/
theorem Copy_grows (b : Buffer) (heap : Heap) (src : List CFloat) (samples offset : Int)
    (hrun : b.copyRuns heap src samples offset)
    (h : b.internalBufferSize < offset + samples) :
    b.Copy heap src samples offset =
      { state := { b with buffer :=
                            ⟨b.buffer.id + 1,
                              CopyFloat (CopyFloat (fun _ => none) 0 b.buffer.cells
                                b.internalBufferSize) offset (cellsOf src) samples,
                              StoreKind.array⟩
                          internalBufferSize := offset + samples
                          samples := max b.samples (offset + samples) }
        thrown := none
        undefined := false
        deleted := deletedBy b.buffer } := by
  obtain ⟨ho, hsrc, hcap, hstore, hre⟩ := hrun
  obtain ⟨hg, hdel⟩ := hre h
  have h1 : offset + samples > b.internalBufferSize := by omega
  have hold : accessDefined b.buffer 0 b.internalBufferSize := ⟨le_refl _, hcap, hstore⟩
  have hnew : accessDefined (⟨b.buffer.id + 1, fun _ => none, StoreKind.array⟩ : Store)
      offset samples := ⟨ho, hsrc.1, Or.inr (Or.inl rfl)⟩
  simp only [Buffer.Copy, h1, if_true, newFloat_of_grants heap b.buffer _ hg,
    if_pos (And.intro hold (And.intro hnew (And.intro hsrc hdel)))]

theorem Copy_thrown (b : Buffer) (heap : Heap) (src : List CFloat) (samples offset : Int)
    (hrun : b.copyRuns heap src samples offset) :
    (b.Copy heap src samples offset).thrown = none ∧
    (b.Copy heap src samples offset).undefined = false := by
  by_cases h : offset + samples ≤ b.internalBufferSize
  · rw [Copy_fits b heap src samples offset hrun h]
    exact ⟨rfl, rfl⟩
  · rw [Copy_grows b heap src samples offset hrun (by omega)]
    exact ⟨rfl, rfl⟩

theorem Copy_samples (b : Buffer) (heap : Heap) (src : List CFloat) (samples offset : Int)
    (hrun : b.copyRuns heap src samples offset) :
    (b.Copy heap src samples offset).state.samples = max b.samples (offset + samples) := by
  by_cases h : offset + samples ≤ b.internalBufferSize
  · rw [Copy_fits b heap src samples offset hrun h]
  · rw [Copy_grows b heap src samples offset hrun (by omega)]

theorem Copy_capacity (b : Buffer) (heap : Heap) (src : List CFloat) (samples offset : Int)
    (hrun : b.copyRuns heap src samples offset) :
    (b.Copy heap src samples offset).state.internalBufferSize
      = max b.internalBufferSize (offset + samples) := by
  by_cases h : offset + samples ≤ b.internalBufferSize
  · rw [Copy_fits b heap src samples offset hrun h]
    simp only
    omega
  · rw [Copy_grows b heap src samples offset hrun (by omega)]
    simp only
    omega

theorem Copy_written (b : Buffer) (heap : Heap) (src : List CFloat) (samples offset : Int)
    (hrun : b.copyRuns heap src samples offset) (i : Nat) (hi : (i : Int) < samples) :
    (b.Copy heap src samples offset).state.buffer.cells (offset + i) = src[i]? := by
  have ho := hrun.1
  have h1 : offset ≤ offset + (i : Int) ∧ offset + (i : Int) < offset + samples := by omega
  have h2 : offset + (i : Int) - offset = (i : Int) := by omega
  by_cases h : offset + samples ≤ b.internalBufferSize
  · rw [Copy_fits b heap src samples offset hrun h]
    simp [CopyFloat, cellsOf, h1, h2]
  · rw [Copy_grows b heap src samples offset hrun (by omega)]
    simp [CopyFloat, cellsOf, h1, h2]

theorem Copy_kept (b : Buffer) (heap : Heap) (src : List CFloat) (samples offset : Int)
    (hrun : b.copyRuns heap src samples offset) (j : Int) (hj0 : 0 ≤ j)
    (hj : j < b.internalBufferSize) (hout : ¬ (offset ≤ j ∧ j < offset + samples)) :
    (b.Copy heap src samples offset).state.buffer.cells j = b.buffer.cells j := by
  have h3 : (0 : Int) ≤ j ∧ j < 0 + b.internalBufferSize := by omega
  by_cases h : offset + samples ≤ b.internalBufferSize
  · rw [Copy_fits b heap src samples offset hrun h]
    simp only [CopyFloat, if_neg hout]
  · rw [Copy_grows b heap src samples offset hrun (by omega)]
    simp only [CopyFloat, if_neg hout, if_pos h3, sub_zero]

theorem Copy_ownsStore (b : Buffer) (heap : Heap) (src : List CFloat) (samples offset : Int)
    (hrun : b.copyRuns heap src samples offset) (hown : b.ownsStore) :
    (b.Copy heap src samples offset).state.ownsStore := by
  by_cases h : offset + samples ≤ b.internalBufferSize
  · rw [Copy_fits b heap src samples offset hrun h]
    exact hown
  · rw [Copy_grows b heap src samples offset hrun (by omega)]
    have := hrun.2.2.1
    exact Or.inr ⟨rfl, by show 0 ≤ offset + samples; omega⟩

/-- A call with arguments in range on a buffer that owns its store runs, when
the free store grants the span. -/
theorem copyRuns_of_ownsStore (b : Buffer) (heap : Heap) (src : List CFloat)
    (samples offset : Int) (hown : b.ownsStore) (ho : 0 ≤ offset) (hs : 0 ≤ samples)
    (hsrc : samples ≤ src.length) (hlim : offset + samples ≤ maxArrayLength)
    (hroom : offset + samples ≤ heap.available) :
    b.copyRuns heap src samples offset := by
  refine ⟨ho, ⟨hs, hsrc⟩, ?_, ?_, fun _ => ⟨⟨by omega, hlim, hroom⟩, ?_⟩⟩
  · rcases hown with ⟨_, h0⟩ | ⟨_, h0⟩ <;> omega
  · rcases hown with ⟨_, h0⟩ | ⟨hk, _⟩
    · exact Or.inl h0
    · exact Or.inr (Or.inl hk)
  · rcases hown with ⟨hk, _⟩ | ⟨hk, _⟩
    · exact Or.inl hk
    · exact Or.inr hk

theorem maxSpan_nonneg (ws : List CopyCall) : 0 ≤ maxSpan ws := by
  induction ws with
  | nil => simp [maxSpan]
  | cons w ws ih =>
    have : maxSpan (w :: ws) = max (w.offset + w.samples) (maxSpan ws) := rfl
    omega

theorem maxSpan_perm {ws ws2 : List CopyCall} (h : ws.Perm ws2) : maxSpan ws = maxSpan ws2 := by
  induction h with
  | nil => rfl
  | cons w _ ih =>
    show max _ (maxSpan _) = max _ (maxSpan _)
    rw [ih]
  | swap a c l =>
    show max _ (max _ (maxSpan l)) = max _ (max _ (maxSpan l))
    omega
  | trans _ _ ih1 ih2 => exact ih1.trans ih2

theorem overlaps_symm (a c : CopyCall) (h : a.overlaps c) : c.overlaps a := by
  unfold CopyCall.overlaps at *
  omega

theorem CopyAll_spec (heap : Heap) (ws : List CopyCall) :
    ∀ b : Buffer, b.ownsStore → 0 ≤ b.samples → (∀ w ∈ ws, w.wellFormed) →
      ws.Pairwise (fun a c => ¬ a.overlaps c) →
      maxSpan ws ≤ maxArrayLength → maxSpan ws ≤ heap.available →
      (CopyAll heap b ws).thrown = none ∧
      (CopyAll heap b ws).undefined = false ∧
      (CopyAll heap b ws).state.samples = max b.samples (maxSpan ws) ∧
      b.internalBufferSize ≤ (CopyAll heap b ws).state.internalBufferSize ∧
      (∀ j : Int, 0 ≤ j → j < b.internalBufferSize →
        (∀ w ∈ ws, ¬ (w.offset ≤ j ∧ j < w.offset + w.samples)) →
        (CopyAll heap b ws).state.buffer.cells j = b.buffer.cells j) ∧
      (∀ w ∈ ws, ∀ i : Nat, (i : Int) < w.samples →
        (CopyAll heap b ws).state.buffer.cells (w.offset + i) = w.buffer[i]?) := by
  induction ws with
  | nil =>
    intro b _ hb _ _ _ _
    refine ⟨rfl, rfl, ?_, le_refl _, fun _ _ _ _ => rfl, ?_⟩
    · show b.samples = max b.samples 0
      omega
    · intro w hw
      cases hw
  | cons w ws ih =>
    intro b hown hb hwf hpw hlim hroom
    obtain ⟨ho, hs, hlen⟩ := hwf w (List.mem_cons_self _ _)
    have hwf2 : ∀ v ∈ ws, v.wellFormed := fun v hv => hwf v (List.mem_cons_of_mem _ hv)
    rw [List.pairwise_cons] at hpw
    obtain ⟨hhead, htail⟩ := hpw
    have hms : maxSpan (w :: ws) = max (w.offset + w.samples) (maxSpan ws) := rfl
    have hrun : b.copyRuns heap w.buffer w.samples w.offset :=
      copyRuns_of_ownsStore b heap w.buffer w.samples w.offset hown ho hs hlen
        (by omega) (by omega)
    obtain ⟨hthrown, hundef⟩ := Copy_thrown b heap w.buffer w.samples w.offset hrun
    have hcap := Copy_capacity b heap w.buffer w.samples w.offset hrun
    have hsam := Copy_samples b heap w.buffer w.samples w.offset hrun
    obtain ⟨i1, i0, i2, i3, i4, i5⟩ :=
      ih (b.Copy heap w.buffer w.samples w.offset).state
        (Copy_ownsStore b heap w.buffer w.samples w.offset hrun hown)
        (by omega) hwf2 htail (by omega) (by omega)
    have hstep : CopyAll heap b (w :: ws) =
        { CopyAll heap (b.Copy heap w.buffer w.samples w.offset).state ws with
          deleted := (b.Copy heap w.buffer w.samples w.offset).deleted
            ++ (CopyAll heap (b.Copy heap w.buffer w.samples w.offset).state ws).deleted } := by
      rw [CopyAll]
      simp only [hundef, hthrown, Bool.false_eq_true, if_false]
    rw [hstep]
    refine ⟨i1, i0, ?_, ?_, ?_, ?_⟩
    · show (CopyAll heap (b.Copy heap w.buffer w.samples w.offset).state ws).state.samples = _
      rw [i2, hsam, hms]; omega
    · show b.internalBufferSize
        ≤ (CopyAll heap (b.Copy heap w.buffer w.samples w.offset).state ws).state.internalBufferSize
      omega
    · intro j hj0 hj hout
      show (CopyAll heap (b.Copy heap w.buffer w.samples w.offset).state ws).state.buffer.cells j
        = _
      rw [i4 j hj0 (by omega) (fun v hv => hout v (List.mem_cons_of_mem _ hv))]
      exact Copy_kept b heap w.buffer w.samples w.offset hrun j hj0 hj
        (hout w (List.mem_cons_self _ _))
    · intro v hv i hi
      show (CopyAll heap (b.Copy heap w.buffer w.samples w.offset).state ws).state.buffer.cells
        (v.offset + i) = _
      rcases List.mem_cons.mp hv with rfl | hv2
      · rw [i4 (v.offset + i) (by omega) (by omega)]
        · exact Copy_written b heap v.buffer v.samples v.offset hrun i hi
        · intro u hu hin
          apply hhead u hu
          unfold CopyCall.overlaps
          omega
      · exact i5 v hv2 i hi

theorem newFloat_of_not_grants (heap : Heap) (live : Store) (n : Int) (h : ¬ heap.grants n) :
    ∃ e, newFloat heap live n = Except.error e := by
  unfold newFloat
  by_cases ha : n < 0 ∨ n > maxArrayLength
  · exact ⟨_, if_pos ha⟩
  · by_cases hb : n > heap.available
    · exact ⟨Exception.bad_alloc, by rw [if_neg ha, if_pos hb]⟩
    · exact absurd ⟨by omega, by omega, by omega⟩ h

theorem ofFlags_ownsStore (flags : Flags) : (Buffer.ofFlags flags).ownsStore :=
  Or.inl ⟨rfl, rfl⟩

theorem deleteDefined_of_ownsStore (b : Buffer) (h : b.ownsStore) : deleteDefined b.buffer := by
  rcases h with ⟨hk, _⟩ | ⟨hk, _⟩
  · exact Or.inl hk
  · exact Or.inr hk

/-- What `SetSamples` does when it has to grow the store and the free store
grants the block. -/
theorem SetSamples_grows (b : Buffer) (heap : Heap) (n : Int)
    (hflag : ¬ (b.flags.ImmutableSize = true ∧ b.internalBufferSize > 0))
    (h : b.internalBufferSize < n) (hg : heap.grants n) (hdel : deleteDefined b.buffer) :
    b.SetSamples heap n =
      { state := { b with samples := n
                          buffer := ⟨(deleteArray b.buffer).id + 1, fun _ => none,
                            StoreKind.array⟩
                          internalBufferSize := n }
        thrown := none
        undefined := false
        deleted := deletedBy b.buffer } := by
  have h1 : n > b.internalBufferSize := by omega
  simp only [Buffer.SetSamples, Buffer.ResizeBuffer, h1, if_true, if_neg hflag, if_pos hdel,
    newFloat_of_grants heap _ n hg]

/-- What `SetSamples` does within the capacity. -/
theorem SetSamples_fits (b : Buffer) (heap : Heap) (n : Int) (h : n ≤ b.internalBufferSize) :
    b.SetSamples heap n =
      { state := { b with samples := n }, thrown := none, undefined := false, deleted := [] } := by
  have h1 : ¬ (n > b.internalBufferSize) := by omega
  simp only [Buffer.SetSamples, Buffer.ResizeBuffer, h1, if_false]

/-- A growable buffer that owns its store owns it after a `SetSamples` that
returned. -/
theorem SetSamples_ownsStore (b : Buffer) (heap : Heap) (n : Int) (hown : b.ownsStore)
    (hgrow : b.flags.ImmutableSize = false) (hn : 0 ≤ n)
    (hg : b.internalBufferSize < n → heap.grants n) :
    (b.SetSamples heap n).state.ownsStore := by
  by_cases h : n ≤ b.internalBufferSize
  · rw [SetSamples_fits b heap n h]
    exact hown
  · have hflag : ¬ (b.flags.ImmutableSize = true ∧ b.internalBufferSize > 0) := by
      simp [hgrow]
    rw [SetSamples_grows b heap n hflag (by omega) (hg (by omega))
      (deleteDefined_of_ownsStore b hown)]
    exact Or.inr ⟨rfl, hn⟩

/-! ## Claims on the buffer -/

/-- C1, as the claim states it, fails where `Copy` cannot get its block:
`Copy(&x, 0, 2^62)` on a fresh growable buffer has offset and count not
negative and a source of one sample, `new float[2^62]` throws
`std::bad_array_new_length`, and the logical length stays 0 where the claim
puts it at `max(0, 2^62)`. The call is moreover undefined on a view of negative
sample count (a `memcpy` of -1 cells) and on a view over an automatic array
that has to grow (`delete[]` of memory that is not a block of `new float[]`). -/
theorem Copy_preserving_write_counterexample :
    (0 : Int) ≤ 2 ^ 62 ∧ (0 : Int) ≤ 0 ∧ (0 : Int) ≤ ([5] : List CFloat).length ∧
    ((Buffer.ofFlags Flags.NoFlags).Copy exampleHeap [5] 0 (2 ^ 62)).thrown
      = some Exception.bad_array_new_length ∧
    ¬ (((Buffer.ofFlags Flags.NoFlags).Copy exampleHeap [5] 0 (2 ^ 62)).state.samples
      = max (Buffer.ofFlags Flags.NoFlags).samples (2 ^ 62 + 0)) ∧
    ((Buffer.ofPointer (callerMemory []) (-1)).Copy exampleHeap [5] 1 0).undefined = true ∧
    ((Buffer.ofPointer (callerArray [1, 2, 3, 4]) 4).Copy exampleHeap [9] 1 4).undefined
      = true := by
  decide

/-- C1, amended: `Copy` is a copy-preserving write whenever it is defined and
gets the block it asks for. For a buffer whose capacity is not negative and
whose store holds it, offset and count not negative and a source of at least
count samples, and, when the span exceeds the capacity, a free store that
grants `new float[offset + count]` and a store held that is null or a live
block of `new float[]`: the call returns, the cells of the span hold the
source samples, every cell below the old capacity and outside the span holds
what it held, and the logical length is the larger of the old length and the
end of the span. The statement does not depend on which branch runs. -/
theorem Copy_preserving_write (b : Buffer) (heap : Heap) (src : List CFloat)
    (samples offset : Int)
    (ho : 0 ≤ offset) (hs : 0 ≤ samples) (hsrc : samples ≤ src.length)
    (hcap : 0 ≤ b.internalBufferSize)
    (hstore : b.internalBufferSize = 0 ∨ b.buffer.usable)
    (hgrow : b.internalBufferSize < offset + samples →
      heap.grants (offset + samples) ∧ deleteDefined b.buffer) :
    (b.Copy heap src samples offset).thrown = none ∧
    (b.Copy heap src samples offset).undefined = false ∧
    (∀ i : Nat, (i : Int) < samples →
      ∃ x, src[i]? = some x ∧
        (b.Copy heap src samples offset).state.buffer.cells (offset + i) = some x) ∧
    (∀ j : Int, 0 ≤ j → j < b.internalBufferSize → ¬ (offset ≤ j ∧ j < offset + samples) →
      (b.Copy heap src samples offset).state.buffer.cells j = b.buffer.cells j) ∧
    (b.Copy heap src samples offset).state.samples = max b.samples (offset + samples) := by
  have hrun : b.copyRuns heap src samples offset := ⟨ho, ⟨hs, hsrc⟩, hcap, hstore, hgrow⟩
  refine ⟨(Copy_thrown b heap src samples offset hrun).1,
    (Copy_thrown b heap src samples offset hrun).2, ?_, ?_,
    Copy_samples b heap src samples offset hrun⟩
  · intro i hi
    have hlt : i < src.length := by omega
    exact ⟨src[i], List.getElem?_eq_getElem hlt,
      (Copy_written b heap src samples offset hrun i hi).trans (List.getElem?_eq_getElem hlt)⟩
  · intro j hj0 hj hout
    exact Copy_kept b heap src samples offset hrun j hj0 hj hout

/-- Witness of C1: two samples written at offset 3 of a growable buffer of
capacity 4 (the reallocating branch). -/
theorem Copy_preserving_write_witness :
    (0 : Int) ≤ 3 ∧ (0 : Int) ≤ 2 ∧ (2 : Int) ≤ ([9, 8] : List CFloat).length ∧
    0 ≤ exampleGrown.internalBufferSize ∧
    (exampleGrown.internalBufferSize = 0 ∨ exampleGrown.buffer.usable) ∧
    (exampleGrown.internalBufferSize < 3 + 2 →
      exampleHeap.grants (3 + 2) ∧ deleteDefined exampleGrown.buffer) ∧
    (exampleGrown.Copy exampleHeap [9, 8] 2 3).thrown = none ∧
    (exampleGrown.Copy exampleHeap [9, 8] 2 3).state.buffer.cells 2
      = exampleGrown.buffer.cells 2 ∧
    (exampleGrown.Copy exampleHeap [9, 8] 2 3).state.samples
      = max exampleGrown.samples (3 + 2) :=
  ⟨by decide, by decide, by decide, by decide, by decide, by decide,
    (Copy_preserving_write exampleGrown exampleHeap [9, 8] 2 3 (by decide) (by decide)
      (by decide) (by decide) (by decide) (by decide)).1,
    (Copy_preserving_write exampleGrown exampleHeap [9, 8] 2 3 (by decide) (by decide)
      (by decide) (by decide) (by decide) (by decide)).2.2.2.1 2 (by decide) (by decide)
      (by decide),
    (Copy_preserving_write exampleGrown exampleHeap [9, 8] 2 3 (by decide) (by decide)
      (by decide) (by decide) (by decide) (by decide)).2.2.2.2⟩

/-- C2, as the claim states it, fails on a span the allocator cannot serve: the
one call `Copy([5], 1, 2^62)` on a fresh growable buffer is well formed, `new
float[2^62 + 1]` throws `std::bad_array_new_length`, the cell at `2^62` does
not hold the sample and the logical length stays 0, not `2^62 + 1`. -/
theorem Copy_sequence_any_order_counterexample :
    (∀ w ∈ [(⟨[5], 1, 2 ^ 62⟩ : CopyCall)], w.wellFormed) ∧
    [(⟨[5], 1, 2 ^ 62⟩ : CopyCall)].Pairwise (fun a c => ¬ a.overlaps c) ∧
    (CopyAll exampleHeap (Buffer.ofFlags ⟨false, false⟩) [⟨[5], 1, 2 ^ 62⟩]).thrown
      = some Exception.bad_array_new_length ∧
    (CopyAll exampleHeap (Buffer.ofFlags ⟨false, false⟩)
      [⟨[5], 1, 2 ^ 62⟩]).state.buffer.cells (2 ^ 62 + 0) ≠ some 5 ∧
    ¬ ((CopyAll exampleHeap (Buffer.ofFlags ⟨false, false⟩) [⟨[5], 1, 2 ^ 62⟩]).state.samples
      = maxSpan [⟨[5], 1, 2 ^ 62⟩]) := by
  decide

/-- C2, amended: non-overlapping writes to a fresh growable buffer land
whatever their order, when the free store grants the blocks. For calls `ws`
with offsets and counts not negative, sources long enough, spans that pairwise
share no cell and a largest span end within the array limit and the room of
the free store, and for every reordering `ws2` of them: running `ws2` on a
buffer just created without `ImmutableSize` returns, leaves in every cell of
every span the source sample written there, and leaves the logical length at
the largest span end. -/
theorem Copy_sequence_any_order (heap : Heap) (noDelete : Bool) (ws ws2 : List CopyCall)
    (hperm : ws2.Perm ws) (hwf : ∀ w ∈ ws, w.wellFormed)
    (hdis : ws.Pairwise (fun a c => ¬ a.overlaps c))
    (hlim : maxSpan ws ≤ maxArrayLength) (hroom : maxSpan ws ≤ heap.available) :
    (CopyAll heap (Buffer.ofFlags ⟨false, noDelete⟩) ws2).thrown = none ∧
    (CopyAll heap (Buffer.ofFlags ⟨false, noDelete⟩) ws2).undefined = false ∧
    (∀ w ∈ ws, ∀ i : Nat, (i : Int) < w.samples →
      ∃ x, w.buffer[i]? = some x ∧
        (CopyAll heap (Buffer.ofFlags ⟨false, noDelete⟩) ws2).state.buffer.cells (w.offset + i)
          = some x) ∧
    (CopyAll heap (Buffer.ofFlags ⟨false, noDelete⟩) ws2).state.samples = maxSpan ws := by
  have hwf2 : ∀ w ∈ ws2, w.wellFormed := fun w hw => hwf w (hperm.mem_iff.mp hw)
  have hdis2 : ws2.Pairwise (fun a c => ¬ a.overlaps c) :=
    (List.Perm.pairwise_iff (fun {a c} h hca => h (overlaps_symm c a hca)) hperm).mpr hdis
  have hms := maxSpan_perm hperm
  obtain ⟨h1, h0, h2, _, _, h5⟩ :=
    CopyAll_spec heap ws2 (Buffer.ofFlags ⟨false, noDelete⟩) (ofFlags_ownsStore _) (le_refl _)
      hwf2 hdis2 (by omega) (by omega)
  refine ⟨h1, h0, ?_, ?_⟩
  · intro w hw i hi
    have hlt : i < w.buffer.length := by
      have := (hwf w hw).2.2
      omega
    exact ⟨w.buffer[i], List.getElem?_eq_getElem hlt,
      (h5 w (hperm.mem_iff.mpr hw) i hi).trans (List.getElem?_eq_getElem hlt)⟩
  · rw [h2, hms]
    have := maxSpan_nonneg ws
    show max (0 : Int) (maxSpan ws) = maxSpan ws
    omega

/-- Witness of C2: the writes `[1, 2]` at 0 and `[3]` at 4, made in the
opposite order. -/
theorem Copy_sequence_any_order_witness :
    maxSpan [⟨[1, 2], 2, 0⟩, ⟨[3], 1, 4⟩] ≤ maxArrayLength ∧
    maxSpan [⟨[1, 2], 2, 0⟩, ⟨[3], 1, 4⟩] ≤ exampleHeap.available ∧
    (CopyAll exampleHeap (Buffer.ofFlags ⟨false, false⟩)
      [⟨[3], 1, 4⟩, ⟨[1, 2], 2, 0⟩]).thrown = none ∧
    (CopyAll exampleHeap (Buffer.ofFlags ⟨false, false⟩)
      [⟨[3], 1, 4⟩, ⟨[1, 2], 2, 0⟩]).state.samples
      = maxSpan [⟨[1, 2], 2, 0⟩, ⟨[3], 1, 4⟩] :=
  ⟨by decide, by decide,
    (Copy_sequence_any_order exampleHeap false [⟨[1, 2], 2, 0⟩, ⟨[3], 1, 4⟩]
      [⟨[3], 1, 4⟩, ⟨[1, 2], 2, 0⟩]
      (List.Perm.swap _ _ []) (by decide) (by decide) (by decide) (by decide)).1,
    (Copy_sequence_any_order exampleHeap false [⟨[1, 2], 2, 0⟩, ⟨[3], 1, 4⟩]
      [⟨[3], 1, 4⟩, ⟨[1, 2], 2, 0⟩]
      (List.Perm.swap _ _ []) (by decide) (by decide) (by decide) (by decide)).2.2.2⟩

/-- C3: on a view over caller memory of capacity `c > 0`, `SetSamples(n)` throws
the resize error when `n > c`; when `n ≤ c` it returns, the logical length is
`n` and the capacity is still `c`. -/
theorem SetSamples_on_view (buffer : Store) (heap : Heap) (c n : Int) (hc : 0 < c) :
    (c < n → ((Buffer.ofPointer buffer c).SetSamples heap n).thrown
      = some ResizeOnImmutableBuffer) ∧
    (n ≤ c → ((Buffer.ofPointer buffer c).SetSamples heap n).thrown = none ∧
      ((Buffer.ofPointer buffer c).SetSamples heap n).state.samples = n ∧
      ((Buffer.ofPointer buffer c).SetSamples heap n).state.internalBufferSize = c) := by
  constructor
  · intro h
    simp [Buffer.SetSamples, Buffer.ResizeBuffer, Buffer.ofPointer, ResizeOnImmutableBuffer, h, hc]
  · intro h
    rw [SetSamples_fits _ heap n h]
    exact ⟨rfl, rfl, rfl⟩

/-- Witness of C3: a view over four samples, asked for five and for three. -/
theorem SetSamples_on_view_witness :
    (0 : Int) < 4 ∧
    ((Buffer.ofPointer (callerMemory [1, 2, 3, 4]) 4).SetSamples exampleHeap 5).thrown
      = some ResizeOnImmutableBuffer ∧
    ((Buffer.ofPointer (callerMemory [1, 2, 3, 4]) 4).SetSamples exampleHeap 3).state.samples
      = 3 :=
  ⟨by decide,
    (SetSamples_on_view (callerMemory [1, 2, 3, 4]) exampleHeap 4 5 (by decide)).1 (by decide),
    ((SetSamples_on_view (callerMemory [1, 2, 3, 4]) exampleHeap 4 3 (by decide)).2
      (by decide)).2.1⟩

/-- C4, as the claim states it, fails on a view whose sample count is negative:
`Buffer(p, -1)` has the flag and a capacity that is not zero, `SetSamples(0)`
exceeds the capacity, and no resize error is thrown. -/
theorem SetSamples_error_iff_nonzero_counterexample :
    ¬ (((Buffer.ofPointer (callerMemory []) (-1)).SetSamples exampleHeap 0).thrown
        = some ResizeOnImmutableBuffer ↔
      ((Buffer.ofPointer (callerMemory []) (-1)).flags.ImmutableSize = true ∧
        (Buffer.ofPointer (callerMemory []) (-1)).internalBufferSize ≠ 0 ∧
        (Buffer.ofPointer (callerMemory []) (-1)).internalBufferSize < 0)) := by
  decide

/-- C4, amended: for every buffer state and every `n`, `SetSamples(n)` throws
the resize error if and only if the `ImmutableSize` flag is set, the capacity
is positive and `n` exceeds the capacity. -/
theorem SetSamples_error_iff (b : Buffer) (heap : Heap) (n : Int) :
    (b.SetSamples heap n).thrown = some ResizeOnImmutableBuffer ↔
      (b.flags.ImmutableSize = true ∧ 0 < b.internalBufferSize ∧ b.internalBufferSize < n) := by
  unfold Buffer.SetSamples Buffer.ResizeBuffer ResizeOnImmutableBuffer newFloat
  by_cases h1 : n > b.internalBufferSize
  · by_cases h2 : b.flags.ImmutableSize = true ∧ b.internalBufferSize > 0
    · simp [h1, h2]
    · by_cases hd : deleteDefined b.buffer
      · by_cases h3 : n < 0 ∨ n > maxArrayLength
        · simp [h1, h2, hd, h3]
        · by_cases h4 : n > heap.available
          · simp [h1, h2, hd, h3, h4]
          · simp [h1, h2, hd, h3, h4]
      · simp [h1, h2, hd]
  · simp [h1]

/-- C5, as the claim states it, fails where the block cannot be had: on a fresh
growable buffer `SetSamples(2^62)` throws `std::bad_array_new_length` and
leaves the logical length at `2^62` over a capacity of 0. -/
theorem SetSamples_growable_counterexample :
    (Buffer.ofFlags Flags.NoFlags).flags.ImmutableSize = false ∧ (0 : Int) ≤ 2 ^ 62 ∧
    ((Buffer.ofFlags Flags.NoFlags).SetSamples exampleHeap (2 ^ 62)).thrown
      = some Exception.bad_array_new_length ∧
    ((Buffer.ofFlags Flags.NoFlags).SetSamples exampleHeap (2 ^ 62)).state.samples = 2 ^ 62 ∧
    ((Buffer.ofFlags Flags.NoFlags).SetSamples exampleHeap (2 ^ 62)).state.internalBufferSize
      = 0 ∧
    ¬ ((2 : Int) ^ 62
      ≤ ((Buffer.ofFlags Flags.NoFlags).SetSamples exampleHeap (2 ^ 62)).state.internalBufferSize)
    := by
  decide

/-- C5, amended: on a buffer without the `ImmutableSize` flag, `SetSamples(n)`
with `n ≥ 0` that either stays within the capacity or gets its block (the free
store grants `new float[n]`, and the store held is null or a live block of
`new float[]`, as in every state `Buffer(flags)` reaches through calls that
returned) returns, the logical length is `n`, the capacity is at least `n`: it
is exactly `n` when `n` exceeded the old capacity and the old capacity
otherwise. -/
theorem SetSamples_growable (b : Buffer) (heap : Heap) (n : Int)
    (hg : b.flags.ImmutableSize = false) (hn : 0 ≤ n)
    (hgrow : b.internalBufferSize < n → heap.grants n ∧ deleteDefined b.buffer) :
    (b.SetSamples heap n).thrown = none ∧
    (b.SetSamples heap n).undefined = false ∧
    (b.SetSamples heap n).state.samples = n ∧
    n ≤ (b.SetSamples heap n).state.internalBufferSize ∧
    (b.internalBufferSize < n → (b.SetSamples heap n).state.internalBufferSize = n) ∧
    (n ≤ b.internalBufferSize →
      (b.SetSamples heap n).state.internalBufferSize = b.internalBufferSize) := by
  have _ := hn
  by_cases h : n ≤ b.internalBufferSize
  · rw [SetSamples_fits b heap n h]
    exact ⟨rfl, rfl, rfl, h, fun h2 => absurd h (by omega), fun _ => rfl⟩
  · have hflag : ¬ (b.flags.ImmutableSize = true ∧ b.internalBufferSize > 0) := by
      simp [hg]
    obtain ⟨hgr, hdel⟩ := hgrow (by omega)
    rw [SetSamples_grows b heap n hflag (by omega) hgr hdel]
    exact ⟨rfl, rfl, rfl, le_refl _, fun _ => rfl, fun h2 => absurd h2 h⟩

/-- Witness of C5: a fresh growable buffer sized to three samples. -/
theorem SetSamples_growable_witness :
    (Buffer.ofFlags Flags.NoFlags).flags.ImmutableSize = false ∧ (0 : Int) ≤ 3 ∧
    ((Buffer.ofFlags Flags.NoFlags).internalBufferSize < 3 →
      exampleHeap.grants 3 ∧ deleteDefined (Buffer.ofFlags Flags.NoFlags).buffer) ∧
    ((Buffer.ofFlags Flags.NoFlags).SetSamples exampleHeap 3).thrown = none ∧
    ((Buffer.ofFlags Flags.NoFlags).SetSamples exampleHeap 3).state.samples = 3 :=
  ⟨by decide, by decide, by decide,
    (SetSamples_growable (Buffer.ofFlags Flags.NoFlags) exampleHeap 3 (by decide) (by decide)
      (by decide)).1,
    (SetSamples_growable (Buffer.ofFlags Flags.NoFlags) exampleHeap 3 (by decide) (by decide)
      (by decide)).2.2.1⟩

/-- C6, as the claim states it, fails where `Copy` cannot get its block: on a
fresh growable buffer `Copy(&x, 0, 2^62)` has offset and count not negative and
a span above the capacity, `new float[2^62]` throws
`std::bad_array_new_length`, the buffer holds the store it held and the
capacity stays 0, not `2^62`. -/
theorem Copy_reallocates_iff_exceeds_counterexample :
    (0 : Int) ≤ 2 ^ 62 ∧ (0 : Int) ≤ 0 ∧
    (Buffer.ofFlags Flags.NoFlags).internalBufferSize < 2 ^ 62 + 0 ∧
    ((Buffer.ofFlags Flags.NoFlags).Copy exampleHeap [5] 0 (2 ^ 62)).thrown
      = some Exception.bad_array_new_length ∧
    ((Buffer.ofFlags Flags.NoFlags).Copy exampleHeap [5] 0 (2 ^ 62)).state.buffer.id
      = (Buffer.ofFlags Flags.NoFlags).buffer.id ∧
    ¬ (((Buffer.ofFlags Flags.NoFlags).Copy exampleHeap [5] 0 (2 ^ 62)).state.internalBufferSize
      = 2 ^ 62 + 0) := by
  decide

/-- C6, amended: `Copy` reallocates when the span exceeds the capacity and the
block can be had. For a buffer whose capacity is not negative and whose store
holds it, offset and count not negative and a source of at least count
samples: when `offset + count` is within the capacity the buffer holds the same
block and the same capacity afterwards and nothing is released; when it
exceeds the capacity, the free store grants `new float[offset + count]` and the
store held is null or a live block of `new float[]`, the buffer holds the
block `new` returned, which is not the one it held, the capacity is
`offset + count`, and the store it held is the one released; when it exceeds
the capacity, is a `long`, and the free store does not grant the block, the
call throws and the buffer holds the block and the capacity it had. -/
theorem Copy_reallocates_iff_exceeds (b : Buffer) (heap : Heap) (src : List CFloat)
    (samples offset : Int)
    (ho : 0 ≤ offset) (hs : 0 ≤ samples) (hsrc : samples ≤ src.length)
    (hcap : 0 ≤ b.internalBufferSize)
    (hstore : b.internalBufferSize = 0 ∨ b.buffer.usable) :
    (offset + samples ≤ b.internalBufferSize →
      (b.Copy heap src samples offset).thrown = none ∧
      (b.Copy heap src samples offset).undefined = false ∧
      (b.Copy heap src samples offset).state.buffer.id = b.buffer.id ∧
      (b.Copy heap src samples offset).state.internalBufferSize = b.internalBufferSize ∧
      (b.Copy heap src samples offset).deleted = []) ∧
    (b.internalBufferSize < offset + samples → heap.grants (offset + samples) →
      deleteDefined b.buffer →
      (b.Copy heap src samples offset).thrown = none ∧
      (b.Copy heap src samples offset).undefined = false ∧
      (∃ p, newFloat heap b.buffer (offset + samples) = Except.ok p ∧
        (b.Copy heap src samples offset).state.buffer.id = p.id) ∧
      (b.Copy heap src samples offset).state.buffer.id ≠ b.buffer.id ∧
      (b.Copy heap src samples offset).state.internalBufferSize = offset + samples ∧
      (b.Copy heap src samples offset).deleted = deletedBy b.buffer) ∧
    (b.internalBufferSize < offset + samples → offset + samples < 2 ^ 63 →
      ¬ heap.grants (offset + samples) →
      (∃ e, (b.Copy heap src samples offset).thrown = some e) ∧
      (b.Copy heap src samples offset).state.buffer.id = b.buffer.id ∧
      (b.Copy heap src samples offset).state.internalBufferSize = b.internalBufferSize) := by
  refine ⟨?_, ?_, ?_⟩
  · intro h
    have hrun : b.copyRuns heap src samples offset :=
      ⟨ho, ⟨hs, hsrc⟩, hcap, hstore, fun h2 => absurd h (by omega)⟩
    rw [Copy_fits b heap src samples offset hrun h]
    exact ⟨rfl, rfl, rfl, rfl, rfl⟩
  · intro h hg hdel
    have hrun : b.copyRuns heap src samples offset :=
      ⟨ho, ⟨hs, hsrc⟩, hcap, hstore, fun _ => ⟨hg, hdel⟩⟩
    rw [Copy_grows b heap src samples offset hrun h]
    exact ⟨rfl, rfl, ⟨_, newFloat_of_grants heap b.buffer _ hg, rfl⟩,
      Nat.succ_ne_self _, rfl, rfl⟩
  · intro h _ hng
    obtain ⟨e, he⟩ := newFloat_of_not_grants heap b.buffer (offset + samples) hng
    have h1 : offset + samples > b.internalBufferSize := by omega
    simp [Buffer.Copy, h1, he]

/-- Witness of C6: on a growable buffer of capacity 4, one sample written at
offset 3 stays in place and one written at offset 4 reallocates. -/
theorem Copy_reallocates_iff_exceeds_witness :
    (0 : Int) ≤ 3 ∧ (0 : Int) ≤ 4 ∧ (0 : Int) ≤ 1 ∧ (1 : Int) ≤ ([9] : List CFloat).length ∧
    0 ≤ exampleGrown.internalBufferSize ∧
    (exampleGrown.internalBufferSize = 0 ∨ exampleGrown.buffer.usable) ∧
    exampleHeap.grants (4 + 1) ∧ deleteDefined exampleGrown.buffer ∧
    (exampleGrown.Copy exampleHeap [9] 1 3).state.buffer.id = exampleGrown.buffer.id ∧
    (exampleGrown.Copy exampleHeap [9] 1 4).state.buffer.id ≠ exampleGrown.buffer.id ∧
    (exampleGrown.Copy exampleHeap [9] 1 4).state.internalBufferSize = 4 + 1 :=
  ⟨by decide, by decide, by decide, by decide, by decide, by decide, by decide, by decide,
    ((Copy_reallocates_iff_exceeds exampleGrown exampleHeap [9] 1 3 (by decide) (by decide)
      (by decide) (by decide) (by decide)).1 (by decide)).2.2.1,
    ((Copy_reallocates_iff_exceeds exampleGrown exampleHeap [9] 1 4 (by decide) (by decide)
      (by decide) (by decide) (by decide)).2.1 (by decide) (by decide) (by decide)).2.2.2.1,
    ((Copy_reallocates_iff_exceeds exampleGrown exampleHeap [9] 1 4 (by decide) (by decide)
      (by decide) (by decide) (by decide)).2.1 (by decide) (by decide) (by decide)).2.2.2.2.1⟩

/-- C7, at the failing input: a view over four samples satisfies
`samples ≤ internalBufferSize`; `SetSamples(5)` throws the resize error and
leaves the object with `samples = 5` and `internalBufferSize = 4`. -/
theorem SetSamples_failure_leaves_length_above_capacity :
    exampleView.samples ≤ exampleView.internalBufferSize ∧
    (exampleView.SetSamples exampleHeap 5).thrown = some ResizeOnImmutableBuffer ∧
    (exampleView.SetSamples exampleHeap 5).state.samples = 5 ∧
    (exampleView.SetSamples exampleHeap 5).state.internalBufferSize = 4 ∧
    ¬ ((exampleView.SetSamples exampleHeap 5).state.samples
        ≤ (exampleView.SetSamples exampleHeap 5).state.internalBufferSize) := by
  decide

/-- C8, at the failing input: a view over four samples in a block of the
caller has the `ImmutableSize` and `NoDelete` flags and capacity 4; `Copy` of
one sample at offset 4 returns with capacity 5 and another allocation in place
of the caller's memory, which it has released. -/
theorem Copy_grows_fixed_capacity_buffer :
    exampleView.flags.ImmutableSize = true ∧ exampleView.flags.NoDelete = true ∧
    exampleView.internalBufferSize = 4 ∧
    (exampleView.Copy exampleHeap [9] 1 4).thrown = none ∧
    (exampleView.Copy exampleHeap [9] 1 4).state.flags.ImmutableSize = true ∧
    (exampleView.Copy exampleHeap [9] 1 4).state.internalBufferSize = 5 ∧
    (exampleView.Copy exampleHeap [9] 1 4).state.buffer.id ≠ exampleView.buffer.id ∧
    (exampleView.Copy exampleHeap [9] 1 4).undefined = false ∧
    (exampleView.Copy exampleHeap [9] 1 4).deleted = [exampleView.buffer.id] := by
  decide

/-! ## Lemmas on the sorted list of outputs -/

theorem String_length_eq_zero (s : String) : s.length = 0 ↔ s = "" := by
  cases s with
  | mk data =>
    constructor
    · intro h
      have hd : data = [] := List.length_eq_zero.mp h
      rw [hd]
    · intro h
      rw [h]
      rfl

theorem LOWER_toList_eq_nil (x : String) : (LOWER x).toList = [] ↔ x = "" := by
  cases x with
  | mk data =>
    show data.map Char.toLower = [] ↔ _
    constructor
    · intro h
      have hd : data = [] := List.map_eq_nil_iff.mp h
      rw [hd]
    · intro h
      have hd : data = [] := congrArg String.data h
      rw [hd]
      rfl

theorem compareByName_iff (a c : IOutput) :
    compareByName a c = true ↔ (LOWER a.Name).toList < (LOWER c.Name).toList := by
  simp [compareByName]

theorem insertSorted_perm (comp : IOutput → IOutput → Bool) (x : IOutput) (l : OutputList) :
    (insertSorted comp x l).Perm (x :: l) := by
  induction l with
  | nil => exact List.Perm.refl _
  | cons y ys ih =>
    unfold insertSorted
    split
    · exact (List.Perm.cons y ih).trans (List.Perm.swap x y ys)
    · exact List.Perm.refl _

theorem stdSort_perm (comp : IOutput → IOutput → Bool) (l : OutputList) :
    (stdSort comp l).Perm l := by
  induction l with
  | nil => exact List.Perm.refl _
  | cons x xs ih =>
    exact (insertSorted_perm comp x (stdSort comp xs)).trans (List.Perm.cons x ih)

theorem insertSorted_sorted (x : IOutput) (l : OutputList) (h : l.Pairwise nameLE) :
    (insertSorted compareByName x l).Pairwise nameLE := by
  induction l with
  | nil => exact List.pairwise_singleton _ _
  | cons y ys ih =>
    obtain ⟨hy, hys⟩ := List.pairwise_cons.mp h
    unfold insertSorted
    split
    · rename_i hc
      have hlt := (compareByName_iff y x).mp hc
      refine List.pairwise_cons.mpr ⟨?_, ih hys⟩
      intro z hz
      rcases List.mem_cons.mp ((insertSorted_perm compareByName x ys).mem_iff.mp hz) with rfl | hz2
      · exact le_of_lt hlt
      · exact hy z hz2
    · rename_i hc
      have hle : nameLE x y := by
        unfold nameLE
        exact not_lt.mp (fun hlt => hc ((compareByName_iff y x).mpr hlt))
      refine List.pairwise_cons.mpr ⟨?_, h⟩
      intro z hz
      rcases List.mem_cons.mp hz with rfl | hz2
      · exact hle
      · exact le_trans hle (hy z hz2)

theorem stdSort_sorted (l : OutputList) : (stdSort compareByName l).Pairwise nameLE := by
  induction l with
  | nil => exact List.Pairwise.nil
  | cons x xs ih => exact insertSorted_sorted x (stdSort compareByName xs) ih

/-- In a sorted list that holds an output with the empty name, the first output
has the empty name. -/
theorem sorted_head_name_empty (first : IOutput) (rest : OutputList)
    (hs : (first :: rest).Pairwise nameLE) (o : IOutput) (ho : o ∈ first :: rest)
    (hname : o.Name = "") : first.Name = "" := by
  rcases List.mem_cons.mp ho with rfl | ho2
  · exact hname
  · have hle : nameLE first o := List.rel_of_pairwise_cons hs ho2
    unfold nameLE at hle
    rw [hname, (LOWER_toList_eq_nil "").mpr rfl] at hle
    apply (LOWER_toList_eq_nil first.Name).mp
    cases hk : (LOWER first.Name).toList with
    | nil => rfl
    | cons c cs =>
      rw [hk] at hle
      exact absurd hle (not_le.mpr (List.nil_lt_cons c cs))

/-- The second and third tier: looking the default name up with `findByName` and
falling back on the first output is looking it up with no test on the name. -/
theorem default_tier (d : String) (first : IOutput) (rest : OutputList)
    (hs : (first :: rest).Pairwise nameLE) :
    (match findByName d (first :: rest) with
      | some o => o
      | none => first)
    = (match (first :: rest).find? (fun o => o.Name == d) with
      | some o => o
      | none => first) := by
  unfold findByName
  by_cases hd : d.length ≠ 0
  · rw [if_pos hd]
    rfl
  · have hd2 : d = "" := (String_length_eq_zero d).mp (not_not.mp hd)
    rw [if_neg hd]
    cases hf : (first :: rest).find? (fun o => o.Name == d) with
    | none => rfl
    | some o =>
      have hmem : o ∈ first :: rest := List.mem_of_find?_eq_some hf
      have hname : o.Name = "" := by
        have := List.find?_some hf
        simp at this
        rw [this, hd2]
      have hfirst : first.Name = "" := sorted_head_name_empty first rest hs o hmem hname
      have : (first :: rest).find? (fun o => o.Name == d) = some first := by
        simp [List.find?_cons, hfirst, hd2]
      rw [this] at hf
      exact (Option.some.inj hf)

/-! ## Claims on the selection of an output -/

/-- C9: `SelectedOutput` is the three-tier fallback. For every preference store,
default name `d` and discovery result, with `p` the stored preference and `S`
the sorted list, the result is `threeTier p d S`: the first output of `S` named
`p` when `p` is not empty and there is one, else the first named `d` when there
is one, else the first of `S`; with nothing discovered it is a fresh `NoOutput`,
whose name is "NoOutput". The four scenarios of the spec follow. -/
theorem SelectedOutput_three_tier :
    (∀ (prefs : Preferences) (d : String) (D : OutputList),
      SelectedOutput prefs d D
        = some (threeTier (prefs.GetString keys.OutputPlugin) d (queryOutputs D))) ∧
    (∀ (prefs : Preferences) (d : String),
      SelectedOutput prefs d [] = some NoOutput.new ∧ NoOutput.new.Name = "NoOutput") ∧
    SelectedOutput (Preferences.empty.SetString keys.OutputPlugin "X") "PulseAudio"
      [IOutput.plugin 1 "X", IOutput.plugin 2 "Y"] = some (IOutput.plugin 1 "X") ∧
    SelectedOutput (Preferences.empty.SetString keys.OutputPlugin "Z") "PulseAudio"
      [IOutput.plugin 1 "Y", IOutput.plugin 2 "PulseAudio"]
      = some (IOutput.plugin 2 "PulseAudio") ∧
    SelectedOutput (Preferences.empty.SetString keys.OutputPlugin "") "PulseAudio"
      [IOutput.plugin 1 "B", IOutput.plugin 2 "A"] = some (IOutput.plugin 2 "A") ∧
    SelectedOutput Preferences.empty "PulseAudio" [] = some NoOutput.new := by
  refine ⟨?_, fun _ _ => ⟨rfl, rfl⟩, by decide, by decide, by decide, by decide⟩
  intro prefs d D
  unfold SelectedOutput
  have hsorted : (queryOutputs D).Pairwise nameLE := stdSort_sorted D
  generalize queryOutputs D = S at hsorted
  generalize prefs.GetString keys.OutputPlugin = p
  cases S with
  | nil => rfl
  | cons first rest =>
    have hdef := default_tier d first rest hsorted
    simp only [List.length_cons, ne_eq, Nat.succ_ne_zero, not_false_eq_true, if_true]
    have hp : (if p ≠ "" then (first :: rest).find? (fun o => o.Name == p) else none)
        = findByName p (first :: rest) := by
      unfold findByName
      by_cases h : p.length ≠ 0
      · have h2 : p ≠ "" := fun e => h ((String_length_eq_zero p).mpr e)
        rw [if_pos h, if_pos h2]
      · have h2 : ¬ p ≠ "" := not_not.mpr ((String_length_eq_zero p).mp (not_not.mp h))
        rw [if_neg h, if_neg h2]
    unfold threeTier
    simp only [hp]
    cases findByName p (first :: rest) with
    | some o => rfl
    | none =>
      simp only [Option.isNone_none, if_true]
      rw [← hdef]
      cases findByName d (first :: rest) with
      | some o => rfl
      | none => simp

/-- C10: `GetAllOutputs` returns the discovered outputs, each as often as it was
discovered, so `GetOutputCount` is the number discovered, in an order in which
the lower-cased name of an output is never after that of a later one. -/
theorem GetAllOutputs_sorted_permutation (D : OutputList) :
    (GetAllOutputs D).Perm D ∧
    GetOutputCount D = D.length ∧
    (GetAllOutputs D).Pairwise nameLE :=
  ⟨stdSort_perm compareByName D, (stdSort_perm compareByName D).length_eq,
    stdSort_sorted D⟩

/-! ## Lemmas on the unmanaged paths -/

theorem release_eq (outputs : OutputList) (log : ReleaseLog) :
    release outputs log = log ++ outputs := by
  unfold release
  induction outputs generalizing log with
  | nil => simp
  | cons o rest ih =>
    rw [List.foldl_cons, ih]
    simp

theorem takeByName_eq (name : String) (l : OutputList) :
    takeByName name l
      = (l.find? (fun o => o.Name == name), l.eraseP (fun o => o.Name == name)) := by
  induction l with
  | nil => rfl
  | cons o rest ih =>
    unfold takeByName
    by_cases h : (o.Name == name) = true
    · simp [h]
    · simp [h, ih]

theorem perm_cons_eraseIdx (l : OutputList) (i : Nat) (o : IOutput) (h : l[i]? = some o) :
    (o :: l.eraseIdx i).Perm l := by
  induction l generalizing i with
  | nil => simp at h
  | cons x xs ih =>
    cases i with
    | zero =>
      simp at h
      rw [h]
      exact List.Perm.refl _
    | succ k =>
      simp at h
      exact (List.Perm.swap x o (xs.eraseIdx k)).trans (List.Perm.cons x (ih k h))

theorem perm_cons_eraseP (l : OutputList) (q : IOutput → Bool) (o : IOutput)
    (h : l.find? q = some o) : (o :: l.eraseP q).Perm l := by
  induction l with
  | nil => simp at h
  | cons x xs ih =>
    by_cases hx : q x = true
    · simp [List.find?_cons, hx] at h
      subst h
      simp [List.eraseP_cons, hx]
    · simp [List.find?_cons, hx] at h
      simp only [List.eraseP_cons, hx]
      exact (List.Perm.swap x o (xs.eraseP q)).trans (List.Perm.cons x (ih h))

theorem queryOutputs_nodup (D : OutputList) (h : D.Nodup) : (queryOutputs D).Nodup :=
  (stdSort_perm compareByName D).nodup_iff.mpr h

/-- The output handed over is not among those released, when no output was
discovered twice. -/
theorem not_mem_rest (l rest : OutputList) (o : IOutput) (hperm : (o :: rest).Perm l)
    (hnd : l.Nodup) : o ∉ rest :=
  (List.nodup_cons.mp (hperm.nodup_iff.mpr hnd)).1

theorem queryOutputs_ne_nil (D : OutputList) (h : D ≠ []) : queryOutputs D ≠ [] := by
  intro hS
  have hlen := (stdSort_perm compareByName D).length_eq
  unfold queryOutputs at hS
  rw [hS] at hlen
  exact h (List.length_eq_zero.mp hlen.symm)

theorem mem_of_perm_cons (l rest : OutputList) (o : IOutput) (hperm : (o :: rest).Perm l) :
    o ∈ l :=
  hperm.mem_iff.mp (List.mem_cons_self o rest)

/-- An output of the sorted list is an output the registry returned; when the
registry returned plugin outputs only, it is one. -/
theorem plugin_of_mem (D : OutputList) (x : IOutput) (hx : x ∈ queryOutputs D)
    (hD : ∀ y ∈ D, ∃ id name, y = IOutput.plugin id name) :
    ∃ id name, x = IOutput.plugin id name :=
  hD x ((stdSort_perm compareByName D).mem_iff.mp hx)

/-! ## Claims on the unmanaged paths -/

/-- C11: `GetUnmanagedOutput(index)` hands over one output and releases its
siblings. For `index` within the sorted list `S`, the output returned is
`S[index]`, the `Release()` calls made are those on the outputs of `S` at the
other indexes, one call each, so that the output returned and the outputs
released make up `S`; when no output was discovered twice the output returned
is not released. With nothing discovered a fresh `NoOutput` is returned and no
call is made. -/
theorem GetUnmanagedOutput_index_releases_siblings (D : OutputList) (i : Nat)
    (log : ReleaseLog) (hi : i < (queryOutputs D).length) :
    (∃ o, (queryOutputs D)[i]? = some o ∧
      GetUnmanagedOutput D i log = some (o, log ++ (queryOutputs D).eraseIdx i) ∧
      (o :: (queryOutputs D).eraseIdx i).Perm (queryOutputs D) ∧
      (D.Nodup → o ∉ (queryOutputs D).eraseIdx i)) ∧
    GetUnmanagedOutput [] i log = some (NoOutput.new, log) := by
  refine ⟨⟨(queryOutputs D)[i], List.getElem?_eq_getElem hi, ?_, ?_, ?_⟩, rfl⟩
  · unfold GetUnmanagedOutput
    have hlen : ¬ ((queryOutputs D).length = 0) := by omega
    simp only [hlen, if_false, List.getElem?_eq_getElem hi, release_eq]
  · exact perm_cons_eraseIdx _ i _ (List.getElem?_eq_getElem hi)
  · intro hnd
    exact not_mem_rest _ _ _ (perm_cons_eraseIdx _ i _ (List.getElem?_eq_getElem hi))
      (queryOutputs_nodup D hnd)

/-- Witness of C11: of the outputs "B" and "A", index 0 of the sorted list is
asked for. -/
theorem GetUnmanagedOutput_index_releases_siblings_witness :
    0 < (queryOutputs exampleOutputs).length ∧
    ∃ o, (queryOutputs exampleOutputs)[0]? = some o ∧
      GetUnmanagedOutput exampleOutputs 0 []
        = some (o, [] ++ (queryOutputs exampleOutputs).eraseIdx 0) :=
  ⟨by decide,
    (GetUnmanagedOutput_index_releases_siblings exampleOutputs 0 [] (by decide)).1.imp
      (fun _ h => ⟨h.1, h.2.1⟩)⟩

/-- C12: `GetUnmanagedSelectedOutput` resolves the preference, then the first
output. With nothing discovered it returns a fresh `NoOutput` and releases
nothing. Otherwise it returns the first output of the sorted list `S` whose
name is the stored preference when there is one, else `S[0]`; the outputs
released are the others of `S`, one call each, and not the one returned when no
output was discovered twice; the output returned is one of `S`, hence a plugin
output and not the sentinel when the registry returned plugin outputs. -/
theorem GetUnmanagedSelectedOutput_preference_then_first (prefs : Preferences)
    (D : OutputList) (log : ReleaseLog) :
    (D = [] → GetUnmanagedSelectedOutput prefs D log = (NoOutput.new, log)) ∧
    (D ≠ [] → ∃ x released,
      GetUnmanagedSelectedOutput prefs D log = (x, log ++ released) ∧
      (x :: released).Perm (queryOutputs D) ∧
      (D.Nodup → x ∉ released) ∧
      ((∀ y ∈ D, ∃ id name, y = IOutput.plugin id name) →
        ∃ id name, x = IOutput.plugin id name) ∧
      (∀ o, (queryOutputs D).find?
          (fun o => o.Name == prefs.GetString keys.OutputPlugin) = some o →
        x = o ∧ released = (queryOutputs D).eraseP
          (fun o => o.Name == prefs.GetString keys.OutputPlugin)) ∧
      ((queryOutputs D).find?
          (fun o => o.Name == prefs.GetString keys.OutputPlugin) = none →
        (queryOutputs D)[0]? = some x ∧ released = (queryOutputs D).eraseIdx 0)) := by
  constructor
  · intro h
    rw [h]
    rfl
  · intro hne
    have hS := queryOutputs_ne_nil D hne
    unfold GetUnmanagedSelectedOutput
    simp only [takeByName_eq, release_eq]
    generalize hp : prefs.GetString keys.OutputPlugin = p
    generalize hSd : queryOutputs D = S at hS
    have hlen : S.length ≠ 0 := fun h => hS (List.length_eq_zero.mp h)
    simp only [hlen, ne_eq, not_false_eq_true, if_true]
    have hfinish : ∀ x released, (x :: released).Perm S →
        (D.Nodup → x ∉ released) ∧
        ((∀ y ∈ D, ∃ id name, y = IOutput.plugin id name) →
          ∃ id name, x = IOutput.plugin id name) := by
      intro x released hperm
      refine ⟨fun hnd => not_mem_rest S released x hperm (hSd ▸ queryOutputs_nodup D hnd), ?_⟩
      intro hD
      exact plugin_of_mem D x (hSd ▸ mem_of_perm_cons S released x hperm) hD
    cases hf : S.find? (fun o => o.Name == p) with
    | some o =>
      have hperm := perm_cons_eraseP S _ o hf
      refine ⟨o, S.eraseP (fun o => o.Name == p), rfl, hperm, (hfinish _ _ hperm).1,
        (hfinish _ _ hperm).2, ?_, ?_⟩
      · intro o2 h2
        exact ⟨(Option.some.inj h2), rfl⟩
      · intro h2
        cases h2
    | none =>
      have hno : S.eraseP (fun o => o.Name == p) = S :=
        List.eraseP_of_forall_not (fun a ha => by
          have := List.find?_eq_none.mp hf a ha
          simpa using this)
      cases S with
      | nil => exact absurd rfl hS
      | cons first rest =>
        have hperm : (first :: rest).Perm (first :: rest) := List.Perm.refl _
        refine ⟨first, rest, ?_, hperm, (hfinish _ _ hperm).1, (hfinish _ _ hperm).2, ?_, ?_⟩
        · simp only [hno]
          simp
        · intro o2 h2
          cases h2
        · intro _
          exact ⟨by simp, by simp⟩

/-- Witness of C12: the outputs "B" and "A" with the preference "B". -/
theorem GetUnmanagedSelectedOutput_preference_then_first_witness :
    exampleOutputs ≠ [] ∧
    ∃ x released,
      GetUnmanagedSelectedOutput (Preferences.empty.SetString keys.OutputPlugin "B")
        exampleOutputs [] = (x, [] ++ released) ∧
      (x :: released).Perm (queryOutputs exampleOutputs) :=
  ⟨by decide,
    ((GetUnmanagedSelectedOutput_preference_then_first
      (Preferences.empty.SetString keys.OutputPlugin "B") exampleOutputs []).2
        (by decide)).imp
      (fun _ h => h.imp (fun _ h2 => ⟨h2.1, h2.2.1⟩))⟩

/-- C13: `GetUnmanagedOutput(name)` selects by exact name. When an output of the
sorted list `S` has the name, the first such is returned, the `Release()` calls
made are those on the other outputs of `S`, one call each, and the output
returned is not released when no output was discovered twice. When none has
the name, nothing discovered included, `Release()` is called once on every
output of `S` and a fresh `NoOutput` is returned. -/
theorem GetUnmanagedOutput_name_exact_match (D : OutputList) (name : String)
    (log : ReleaseLog) :
    (∀ o, (queryOutputs D).find? (fun o => o.Name == name) = some o →
      GetUnmanagedOutputByName D name log
        = (o, log ++ (queryOutputs D).eraseP (fun o => o.Name == name)) ∧
      o.Name = name ∧
      (o :: (queryOutputs D).eraseP (fun o => o.Name == name)).Perm (queryOutputs D) ∧
      (D.Nodup → o ∉ (queryOutputs D).eraseP (fun o => o.Name == name))) ∧
    ((queryOutputs D).find? (fun o => o.Name == name) = none →
      GetUnmanagedOutputByName D name log = (NoOutput.new, log ++ queryOutputs D)) := by
  constructor
  · intro o hf
    have hperm := perm_cons_eraseP (queryOutputs D) _ o hf
    refine ⟨?_, ?_, hperm, fun hnd => not_mem_rest _ _ _ hperm (queryOutputs_nodup D hnd)⟩
    · unfold GetUnmanagedOutputByName
      simp only [takeByName_eq, release_eq, hf]
    · have := List.find?_some hf
      simpa using this
  · intro hf
    have hno : (queryOutputs D).eraseP (fun o => o.Name == name) = queryOutputs D :=
      List.eraseP_of_forall_not (fun a ha => by
        have := List.find?_eq_none.mp hf a ha
        simpa using this)
    unfold GetUnmanagedOutputByName
    simp only [takeByName_eq, release_eq, hf, hno]

/-- Witness of C13: of the outputs "B" and "A", the one named "B" is asked
for. -/
theorem GetUnmanagedOutput_name_exact_match_witness :
    (queryOutputs exampleOutputs).find? (fun o => o.Name == "B")
      = some (IOutput.plugin 1 "B") ∧
    GetUnmanagedOutputByName exampleOutputs "B" []
      = (IOutput.plugin 1 "B",
          [] ++ (queryOutputs exampleOutputs).eraseP (fun o => o.Name == "B")) :=
  ⟨by decide,
    ((GetUnmanagedOutput_name_exact_match exampleOutputs "B" []).1
      (IOutput.plugin 1 "B") (by decide)).1⟩

/-! ## Further claims on the buffer -/

/-- C14: `CopyFormat` changes the format only. With a source `s`, the sample
rate and the channel count of the buffer become those of `s`, and the store,
the logical length, the capacity, the position and the flags stay as they
were; the source is only read, through its accessors, and a buffer that is its
own source stays as it was. With a null source the buffer stays as it was. -/
theorem CopyFormat_changes_format_only (b s : Buffer) :
    (b.CopyFormat (some s)).sampleRate = s.SampleRate ∧
    (b.CopyFormat (some s)).channels = s.Channels ∧
    (b.CopyFormat (some s)).buffer = b.buffer ∧
    (b.CopyFormat (some s)).samples = b.samples ∧
    (b.CopyFormat (some s)).internalBufferSize = b.internalBufferSize ∧
    (b.CopyFormat (some s)).position = b.position ∧
    (b.CopyFormat (some s)).flags = b.flags ∧
    b.CopyFormat (some b) = b ∧
    b.CopyFormat none = b :=
  ⟨rfl, rfl, rfl, rfl, rfl, rfl, rfl, rfl, rfl⟩

/-- C18: the capacity of a buffer never decreases. For every buffer state, the
capacity after `SetSamples(n)`, returned or thrown, and after `Copy` is at
least the capacity before, and `CopyFormat` and the setters leave it as it
was; `SetSamples(n)` with `n` within the capacity returns and leaves the
capacity and the store as they were. -/
theorem capacity_never_decreases (b : Buffer) (heap : Heap) (n : Int) (src : List CFloat)
    (samples offset : Int) (s : Option Buffer) (rate channels : Int) (position : CDouble) :
    b.internalBufferSize ≤ (b.SetSamples heap n).state.internalBufferSize ∧
    b.internalBufferSize ≤ (b.Copy heap src samples offset).state.internalBufferSize ∧
    (b.CopyFormat s).internalBufferSize = b.internalBufferSize ∧
    (b.SetSampleRate rate).internalBufferSize = b.internalBufferSize ∧
    (b.SetChannels channels).internalBufferSize = b.internalBufferSize ∧
    (b.SetPosition position).internalBufferSize = b.internalBufferSize ∧
    (n ≤ b.internalBufferSize →
      (b.SetSamples heap n).thrown = none ∧
      (b.SetSamples heap n).state.internalBufferSize = b.internalBufferSize ∧
      (b.SetSamples heap n).state.buffer = b.buffer) := by
  refine ⟨?_, ?_, ?_, rfl, rfl, rfl, ?_⟩
  · unfold Buffer.SetSamples Buffer.ResizeBuffer
    by_cases h1 : n > b.internalBufferSize
    · by_cases h2 : b.flags.ImmutableSize = true ∧ b.internalBufferSize > 0
      · simp [h1, h2]
      · by_cases hd : deleteDefined b.buffer
        · simp only [h1, h2, hd, if_true, if_false]
          split
          · exact le_refl _
          · show b.internalBufferSize ≤ n
            omega
        · simp [h1, h2, hd]
    · simp [h1]
  · unfold Buffer.Copy
    by_cases h1 : offset + samples > b.internalBufferSize
    · simp only [h1, if_true]
      split
      · exact le_refl _
      · split
        · show b.internalBufferSize ≤ offset + samples
          omega
        · exact le_refl _
    · simp only [h1, if_false]
      split
      · exact le_refl _
      · exact le_refl _
  · cases s with
    | none => rfl
    | some f => rfl
  · intro h
    rw [SetSamples_fits b heap n h]
    exact ⟨rfl, rfl, rfl⟩

/-- Witness of C18: a view over four samples shrunk to two. -/
theorem capacity_never_decreases_witness :
    (2 : Int) ≤ exampleView.internalBufferSize ∧
    (exampleView.SetSamples exampleHeap 2).thrown = none ∧
    (exampleView.SetSamples exampleHeap 2).state.internalBufferSize
      = exampleView.internalBufferSize ∧
    (exampleView.SetSamples exampleHeap 2).state.buffer = exampleView.buffer :=
  ⟨by decide,
    (capacity_never_decreases exampleView exampleHeap 2 [] 0 0 none 0 0 0).2.2.2.2.2.2
      (by decide)⟩

/-! ## Claims on `NoOutput` -/

/-- C15: `NoOutput` answers with fixed values in every state and for every
argument: `Play` returns `OutputState::InvalidState`, `Latency` the double 0.0,
`GetDefaultSampleRate` -1, `GetDeviceList` and `GetDefaultDevice` null,
`SetDefaultDevice` false and `Name` "NoOutput". -/
theorem NoOutput_fixed_sentinels (self : NoOutput) (buffer : Option Buffer)
    (provider : Option Nat) (deviceId : Option String) :
    (self.Play buffer provider).2 = OutputState.InvalidState ∧
    self.Latency = 0 ∧
    self.GetDefaultSampleRate = -1 ∧
    self.GetDeviceList = none ∧
    self.GetDefaultDevice = none ∧
    (self.SetDefaultDevice deviceId).2 = false ∧
    self.Name = "NoOutput" ∧
    self.toIOutput.Name = "NoOutput" :=
  ⟨rfl, rfl, rfl, rfl, rfl, rfl, rfl, rfl⟩

/-- C17, as the claim states it, fails for `SetVolume`: on a fresh `NoOutput`,
whose volume is 1.0, `SetVolume(0.0)` leaves another state, and `GetVolume`
returns 0.0 afterwards. -/
theorem NoOutput_SetVolume_counterexample :
    NoOutput.init.SetVolume 0 ≠ NoOutput.init ∧
    (NoOutput.init.SetVolume 0).GetVolume ≠ NoOutput.init.GetVolume := by
  decide

/-- C17, amended: `Pause`, `Resume`, `Stop`, `Drain`, `Play` and
`SetDefaultDevice` leave a `NoOutput` in the state it was in, whatever their
arguments; `SetVolume(v)` leaves it with the volume `v`, which `GetVolume`
then returns, and with no other change. -/
theorem NoOutput_calls_keep_state (self : NoOutput) (buffer : Option Buffer)
    (provider : Option Nat) (deviceId : Option String) (v : CDouble) :
    self.Pause = self ∧
    self.Resume = self ∧
    self.Stop = self ∧
    self.Drain = self ∧
    (self.Play buffer provider).1 = self ∧
    (self.SetDefaultDevice deviceId).1 = self ∧
    (self.SetVolume v).GetVolume = v ∧
    self.SetVolume v = ⟨v⟩ :=
  ⟨rfl, rfl, rfl, rfl, rfl, rfl, rfl, rfl⟩

/-! ## Claims on the order of the listing -/

theorem names_eq_of_keys_eq (l1 : OutputList) :
    ∀ l2 : OutputList,
      l1.map (fun o => (LOWER o.Name).toList) = l2.map (fun o => (LOWER o.Name).toList) →
      (∀ a ∈ l1, ∀ c ∈ l2, (LOWER a.Name).toList = (LOWER c.Name).toList → a.Name = c.Name) →
      l1.map IOutput.Name = l2.map IOutput.Name := by
  induction l1 with
  | nil =>
    intro l2 h _
    cases l2 with
    | nil => rfl
    | cons c cs => simp at h
  | cons a as ih =>
    intro l2 h hinj
    cases l2 with
    | nil => simp at h
    | cons c cs =>
      simp only [List.map_cons, List.cons.injEq] at h ⊢
      refine ⟨hinj a (List.mem_cons_self _ _) c (List.mem_cons_self _ _) h.1, ?_⟩
      exact ih cs h.2 (fun x hx y hy hxy =>
        hinj x (List.mem_cons_of_mem _ hx) y (List.mem_cons_of_mem _ hy) hxy)

theorem sorted_keys (S : OutputList) (h : S.Pairwise nameLE) :
    (S.map (fun o => (LOWER o.Name).toList)).Sorted (fun k1 k2 => k1 ≤ k2) :=
  List.pairwise_map.mpr h

/-- C16, as the claim states it, fails for names that differ in letter case
only: the outputs "ALSA" and "alsa" are listed in the order they were
discovered in. -/
theorem GetAllOutputs_case_tie_counterexample :
    [IOutput.plugin 1 "ALSA", IOutput.plugin 2 "alsa"].Perm
      [IOutput.plugin 2 "alsa", IOutput.plugin 1 "ALSA"] ∧
    (GetAllOutputs [IOutput.plugin 1 "ALSA", IOutput.plugin 2 "alsa"]).map IOutput.Name
      ≠ (GetAllOutputs [IOutput.plugin 2 "alsa", IOutput.plugin 1 "ALSA"]).map IOutput.Name :=
  ⟨List.Perm.swap _ _ [], by decide⟩

/-- C16, amended: for two discovery results that are permutations of one
another and in which names that are equal once lower-cased are equal,
`GetAllOutputs` returns the same sequence of names. -/
theorem GetAllOutputs_names_deterministic (D1 D2 : OutputList) (hperm : D1.Perm D2)
    (hcase : ∀ a ∈ D1, ∀ c ∈ D1, LOWER a.Name = LOWER c.Name → a.Name = c.Name) :
    (GetAllOutputs D1).map IOutput.Name = (GetAllOutputs D2).map IOutput.Name := by
  have hp1 : (GetAllOutputs D1).Perm D1 := stdSort_perm compareByName D1
  have hp2 : (GetAllOutputs D2).Perm D2 := stdSort_perm compareByName D2
  have hp : (GetAllOutputs D1).Perm (GetAllOutputs D2) := hp1.trans (hperm.trans hp2.symm)
  have hkeys : (GetAllOutputs D1).map (fun o => (LOWER o.Name).toList)
      = (GetAllOutputs D2).map (fun o => (LOWER o.Name).toList) :=
    List.eq_of_perm_of_sorted (hp.map _) (sorted_keys _ (stdSort_sorted D1))
      (sorted_keys _ (stdSort_sorted D2))
  apply names_eq_of_keys_eq _ _ hkeys
  intro a ha c hc hk
  exact hcase a (hp1.mem_iff.mp ha) c (hperm.mem_iff.mpr (hp2.mem_iff.mp hc)) (String.ext hk)

/-- Witness of C16: the outputs "B" and "A" discovered in either order. -/
theorem GetAllOutputs_names_deterministic_witness :
    exampleOutputs.Perm [IOutput.plugin 2 "A", IOutput.plugin 1 "B"] ∧
    (GetAllOutputs exampleOutputs).map IOutput.Name
      = (GetAllOutputs [IOutput.plugin 2 "A", IOutput.plugin 1 "B"]).map IOutput.Name :=
  ⟨List.Perm.swap _ _ [],
    GetAllOutputs_names_deterministic exampleOutputs
      [IOutput.plugin 2 "A", IOutput.plugin 1 "B"] (List.Perm.swap _ _ []) (by decide)⟩

/-! ## Claims relating the selection paths -/

theorem eraseP_eq_eraseIdx (l : OutputList) (q : IOutput → Bool) (o : IOutput)
    (h : l.find? q = some o) : ∃ k, l[k]? = some o ∧ l.eraseP q = l.eraseIdx k := by
  induction l with
  | nil => simp at h
  | cons x xs ih =>
    by_cases hx : q x = true
    · simp [List.find?_cons, hx] at h
      subst h
      exact ⟨0, by simp, by simp [List.eraseP_cons, hx]⟩
    · simp [List.find?_cons, hx] at h
      obtain ⟨k, hk1, hk2⟩ := ih h
      exact ⟨k + 1, by simpa using hk1, by simp [List.eraseP_cons, hx, hk2]⟩

theorem GetString_SetString (prefs : Preferences) (key value : String) :
    (prefs.SetString key value).GetString key = value := by
  simp [Preferences.GetString, Preferences.SetString]

theorem findByName_of_ne_empty (name : String) (hname : name ≠ "") (l : OutputList) :
    findByName name l = l.find? (fun o => o.Name == name) := by
  unfold findByName
  have h : name.length ≠ 0 := fun e => hname ((String_length_eq_zero name).mp e)
  rw [if_pos h]

theorem findByName_empty (l : OutputList) : findByName "" l = none := rfl

theorem SelectedOutput_of_cons (prefs : Preferences) (d : String) (D : OutputList)
    (first : IOutput) (rest : OutputList) (hS : queryOutputs D = first :: rest) :
    SelectedOutput prefs d D
      = some (match findByName (prefs.GetString keys.OutputPlugin) (first :: rest) with
        | some o => o
        | none =>
          match findByName d (first :: rest) with
          | some o => o
          | none => first) := by
  unfold SelectedOutput
  rw [hS]
  simp only [List.length_cons, ne_eq, Nat.succ_ne_zero, not_false_eq_true, if_true]
  cases findByName (prefs.GetString keys.OutputPlugin) (first :: rest) with
  | some o => rfl
  | none =>
    cases findByName d (first :: rest) with
    | some o => rfl
    | none => simp

theorem GetUnmanagedSelectedOutput_of_cons (prefs : Preferences) (D : OutputList)
    (log : ReleaseLog) (first : IOutput) (rest : OutputList)
    (hS : queryOutputs D = first :: rest) :
    GetUnmanagedSelectedOutput prefs D log
      = (match (first :: rest).find?
            (fun o => o.Name == prefs.GetString keys.OutputPlugin) with
        | some o => (o, log ++ (first :: rest).eraseP
            (fun o => o.Name == prefs.GetString keys.OutputPlugin))
        | none => (first, log ++ rest)) := by
  unfold GetUnmanagedSelectedOutput
  rw [hS]
  simp only [takeByName_eq, release_eq, List.length_cons, ne_eq, Nat.succ_ne_zero,
    not_false_eq_true, if_true]
  cases hf : (first :: rest).find?
      (fun o => o.Name == prefs.GetString keys.OutputPlugin) with
  | some o => rfl
  | none =>
    have hno : (first :: rest).eraseP
        (fun o => o.Name == prefs.GetString keys.OutputPlugin) = first :: rest :=
      List.eraseP_of_forall_not (fun a ha => by
        have := List.find?_eq_none.mp hf a ha
        simpa using this)
    simp [hno]

theorem find_none_of_no_name (name : String) (D : OutputList)
    (h : ∀ o ∈ D, o.Name ≠ name) :
    (queryOutputs D).find? (fun o => o.Name == name) = none := by
  apply List.find?_eq_none.mpr
  intro o ho
  have := h o ((stdSort_perm compareByName D).mem_iff.mp ho)
  simpa using this

theorem findByName_none_of_no_name (name : String) (D : OutputList)
    (h : ∀ o ∈ D, o.Name ≠ name) : findByName name (queryOutputs D) = none := by
  unfold findByName
  split
  · exact find_none_of_no_name name D h
  · rfl

/-- C19: the unmanaged and the managed selection agree but for the platform
default. When something was discovered and either the stored preference is not
empty and is the name of an output, or no output has the default name,
`SelectedOutput` returns the output at some index of the sorted list and
`GetUnmanagedSelectedOutput` returns the same output and releases the list
without that index. For the outputs "B" and "A", the preference "Z" and the
default "B", outside that condition, the two return outputs of different
names. -/
theorem selection_paths_agree (prefs : Preferences) (d : String) (D : OutputList)
    (log : ReleaseLog) (hne : D ≠ [])
    (hcond : (prefs.GetString keys.OutputPlugin ≠ "" ∧
        ∃ o ∈ D, o.Name = prefs.GetString keys.OutputPlugin) ∨
      (∀ o ∈ D, o.Name ≠ d)) :
    (∃ k x, (queryOutputs D)[k]? = some x ∧
      SelectedOutput prefs d D = some x ∧
      GetUnmanagedSelectedOutput prefs D log = (x, log ++ (queryOutputs D).eraseIdx k)) ∧
    (exampleOutputs ≠ [] ∧
      ¬ (((Preferences.empty.SetString keys.OutputPlugin "Z").GetString keys.OutputPlugin ≠ "" ∧
          ∃ o ∈ exampleOutputs, o.Name
            = (Preferences.empty.SetString keys.OutputPlugin "Z").GetString keys.OutputPlugin) ∨
        (∀ o ∈ exampleOutputs, o.Name ≠ "B")) ∧
      (SelectedOutput (Preferences.empty.SetString keys.OutputPlugin "Z") "B"
          exampleOutputs).map IOutput.Name
        ≠ some (GetUnmanagedSelectedOutput (Preferences.empty.SetString keys.OutputPlugin "Z")
          exampleOutputs []).1.Name) := by
  refine ⟨?_, by decide, by decide, by decide⟩
  have hsorted : (queryOutputs D).Pairwise nameLE := stdSort_sorted D
  have hSne := queryOutputs_ne_nil D hne
  cases hS : queryOutputs D with
  | nil => exact absurd hS hSne
  | cons first rest =>
    rw [hS] at hsorted
    rw [SelectedOutput_of_cons prefs d D first rest hS,
      GetUnmanagedSelectedOutput_of_cons prefs D log first rest hS]
    generalize hp : prefs.GetString keys.OutputPlugin = p at hcond
    have hnod : (∀ o ∈ D, o.Name ≠ d) → findByName d (first :: rest) = none := by
      intro h
      rw [← hS]
      exact findByName_none_of_no_name d D h
    cases hf : (first :: rest).find? (fun o => o.Name == p) with
    | some o =>
      obtain ⟨k, hk1, hk2⟩ := eraseP_eq_eraseIdx (first :: rest) _ o hf
      refine ⟨k, o, hk1, ?_, by simp only [hk2]⟩
      by_cases hpe : p = ""
      · have honame : o.Name = "" := by
          have := List.find?_some hf
          simp at this
          rw [this, hpe]
        have hfirst : first.Name = "" :=
          sorted_head_name_empty first rest hsorted o (List.mem_of_find?_eq_some hf) honame
        have hof : o = first := by
          have h2 : (first :: rest).find? (fun o => o.Name == p) = some first := by
            simp [List.find?_cons, hfirst, hpe]
          rw [h2] at hf
          exact (Option.some.inj hf).symm
        rcases hcond with ⟨hc, _⟩ | hc
        · exact absurd hpe hc
        · rw [hpe, findByName_empty, hnod hc, hof]
      · rw [findByName_of_ne_empty p hpe, hf]
    | none =>
      refine ⟨0, first, by simp, ?_, by simp⟩
      have hpn : findByName p (first :: rest) = none := by
        unfold findByName
        split
        · exact hf
        · rfl
      rcases hcond with ⟨_, o, ho, hon⟩ | hc
      · exfalso
        have hmem : o ∈ first :: rest := by
          rw [← hS]
          exact (stdSort_perm compareByName D).mem_iff.mpr ho
        have := List.find?_eq_none.mp hf o hmem
        simp [hon] at this
      · rw [hpn, hnod hc]

/-- Witness of C19: the outputs "B" and "A" with the preference "B" and the
default "PulseAudio". -/
theorem selection_paths_agree_witness :
    exampleOutputs ≠ [] ∧
    ∃ k x, (queryOutputs exampleOutputs)[k]? = some x ∧
      SelectedOutput (Preferences.empty.SetString keys.OutputPlugin "B") "PulseAudio"
        exampleOutputs = some x ∧
      GetUnmanagedSelectedOutput (Preferences.empty.SetString keys.OutputPlugin "B")
        exampleOutputs [] = (x, [] ++ (queryOutputs exampleOutputs).eraseIdx k) :=
  ⟨by decide,
    (selection_paths_agree (Preferences.empty.SetString keys.OutputPlugin "B") "PulseAudio"
      exampleOutputs [] (by decide) (Or.inr (by decide))).1⟩

/-- C20: persisting a selection round-trips through the resolution. For an
output `x` of the discovery result with a name that is not empty, after
`SelectOutput(x)` the store returns the name of `x`, and `SelectedOutput` over
the same discovery result returns the first output of the sorted list that has
the name of `x`, whatever the default name and the store before;
`SelectOutput(nullptr)` leaves the store as it was. -/
theorem SelectOutput_round_trip (prefs : Preferences) (d : String) (D : OutputList)
    (x : IOutput) (hx : x ∈ D) (hname : x.Name ≠ "") :
    (SelectOutput prefs (some x)).GetString keys.OutputPlugin = x.Name ∧
    (∃ y, SelectedOutput (SelectOutput prefs (some x)) d D = some y ∧
      y.Name = x.Name ∧
      (queryOutputs D).find? (fun o => o.Name == x.Name) = some y) ∧
    SelectOutput prefs none = prefs := by
  have hget : (SelectOutput prefs (some x)).GetString keys.OutputPlugin = x.Name :=
    GetString_SetString prefs keys.OutputPlugin x.Name
  refine ⟨hget, ?_, rfl⟩
  have hmem : x ∈ queryOutputs D := (stdSort_perm compareByName D).mem_iff.mpr hx
  cases hf : (queryOutputs D).find? (fun o => o.Name == x.Name) with
  | none =>
    exfalso
    have := List.find?_eq_none.mp hf x hmem
    simp at this
  | some y =>
    refine ⟨y, ?_, ?_, rfl⟩
    · cases hS : queryOutputs D with
      | nil =>
        rw [hS] at hmem
        cases hmem
      | cons first rest =>
        rw [SelectedOutput_of_cons _ d D first rest hS, hget,
          findByName_of_ne_empty x.Name hname, ← hS, hf]
    · have := List.find?_some hf
      simpa using this

/-- Witness of C20: the output "B" selected among "B" and "A", with the
default "A". -/
theorem SelectOutput_round_trip_witness :
    IOutput.plugin 1 "B" ∈ exampleOutputs ∧ (IOutput.plugin 1 "B").Name ≠ "" ∧
    ∃ y, SelectedOutput (SelectOutput Preferences.empty (some (IOutput.plugin 1 "B"))) "A"
        exampleOutputs = some y ∧
      y.Name = (IOutput.plugin 1 "B").Name ∧
      (queryOutputs exampleOutputs).find? (fun o => o.Name == (IOutput.plugin 1 "B").Name)
        = some y :=
  ⟨by decide, by decide,
    (SelectOutput_round_trip Preferences.empty "A" exampleOutputs (IOutput.plugin 1 "B")
      (by decide) (by decide)).2.1⟩

end Musik
